/-
Verification of the polypaper trading engine against its design spec.

Shallow embedding conventions:
* Python floats are modelled as exact rationals (ℚ) for the ledger, fill
  engine, sizers and gating logic, and as real numbers (ℝ) for the
  log-normal fair-value estimator (which uses log / sqrt / erf).
* Numeric guard constants from the source (1e-9, 1e-6, ...) are kept as the
  corresponding exact rationals/reals.
* Order-book levels arrive as JSON dicts; a level that fails the
  `float(lvl["price"]) / float(lvl["size"])` parse in the source is
  modelled as `none`, a parsed level as `some (price, size)`.
* sqlite rows are modelled as a list of `Trade` records plus the single
  account row (cash, starting bankroll); each `conn.commit()` in the
  source corresponds to one persisted `DBState` snapshot.
* Wall-clock timestamps (`opened_at`, `closed_at`, `utc_now_iso`) are
  omitted: no claim mentions them.
-/

import Mathlib

/-! ## Fill engine  (src/polytrader/fill_engine.py) -/

/-- `FillResult` dataclass from src/polytrader/types.py (fields over ℚ). -/
structure FillResult where
  avg_price : ℚ
  shares : ℚ
  spent_usd : ℚ
  levels_used : ℕ
  slippage_bps : ℚ
  deriving DecidableEq, Repr

/-- One order-book ask level: `none` when the dict entry fails the
`float(...)` parse in `FillEngine.simulate_buy`, otherwise `(price, size)`. -/
abbrev BookLevel := Option (ℚ × ℚ)

/-- The `for lvl in asks` loop of `FillEngine.simulate_buy`: walks the ask
levels, greedily consuming `min(remaining, price*size)` per valid level.
Returns the final `(spent, shares, levels)` accumulators. -/
def fill_walk : List BookLevel → ℚ → ℚ → ℚ → ℕ → ℚ × ℚ × ℕ
  | [], _, spent, shares, levels => (spent, shares, levels)
  | none :: rest, remaining, spent, shares, levels =>
      fill_walk rest remaining spent shares levels
  | some (px, sz) :: rest, remaining, spent, shares, levels =>
      if px ≤ 0 ∨ sz ≤ 0 then fill_walk rest remaining spent shares levels
      else
        let take_usd := min remaining (px * sz)
        let spent' := spent + take_usd
        let shares' := shares + take_usd / px
        let remaining' := remaining - take_usd
        let levels' := levels + 1
        if remaining' ≤ 1 / 1000000000 then (spent', shares', levels')
        else fill_walk rest remaining' spent' shares' levels'

/-- `top_ask = float(asks[0]["price"])`, falling back to `avg_price` when
the book is empty or the first level is unparseable. -/
def top_ask_price (asks : List BookLevel) (avg_price : ℚ) : ℚ :=
  match asks with
  | some (px, _) :: _ => px
  | _ => avg_price

/-- The price of the first listed level of the book when it is parseable
(used to state slippage claims against the code's `asks[0]` baseline). -/
def first_listed_price (asks : List BookLevel) : Option ℚ :=
  match asks with
  | some (px, _) :: _ => some px
  | _ => none

/-- The price of the first level with positive price and size, i.e. the
first level the walk could actually consume (the best price actually
present in the book, as the spec words it). -/
def first_valid_price : List BookLevel → Option ℚ
  | [] => none
  | none :: rest => first_valid_price rest
  | some (px, sz) :: rest =>
      if px ≤ 0 ∨ sz ≤ 0 then first_valid_price rest else some px

/-- A level is unusable by the walk: unparseable, or non-positive price or
size. -/
def invalid_level : BookLevel → Prop
  | none => True
  | some (px, sz) => px ≤ 0 ∨ sz ≤ 0

instance : DecidablePred invalid_level := by
  intro lvl
  cases lvl with
  | none => exact .isTrue trivial
  | some v => exact inferInstanceAs (Decidable (v.1 ≤ 0 ∨ v.2 ≤ 0))

/-- `FillEngine.simulate_buy` from src/polytrader/fill_engine.py.
The `book` dict / `asks` list validity checks collapse to the typed ask
list; `usd_amount <= 0` returns `None`. -/
def simulate_buy (asks : List BookLevel) (usd_amount : ℚ) : Option FillResult :=
  if usd_amount ≤ 0 then none
  else
    let w := fill_walk asks usd_amount 0 0 0
    if w.2.1 ≤ 0 ∨ w.1 ≤ 0 then none
    else
      let avg_price := w.1 / w.2.1
      let top_ask := top_ask_price asks avg_price
      some { avg_price := avg_price
             shares := w.2.1
             spent_usd := w.1
             levels_used := w.2.2
             slippage_bps := (avg_price / max top_ask (1 / 1000000000) - 1) * 10000 }

/-! ## Signals, orders and the Kelly sizer
(src/polytrader/types.py, src/polytrader/sizers/kelly.py) -/

/-- `Signal` dataclass (metadata dict omitted: no claim mentions it). -/
structure Signal where
  model : String
  side : String
  token_id : String
  market_price : ℚ
  model_price : ℚ
  edge : ℚ
  confidence : ℚ
  deriving DecidableEq, Repr

/-- `SizedOrder` dataclass (metadata dict omitted). -/
structure SizedOrder where
  sizer : String
  side : String
  token_id : String
  order_usd : ℚ
  deriving DecidableEq, Repr

/-- `q = min(max(signal.market_price, 1e-6), 0.999999)` in `KellySizer.size`. -/
def kelly_clamp_q (market_price : ℚ) : ℚ :=
  min (max market_price (1 / 1000000)) (999999 / 1000000)

/-- `p = min(max(signal.model_price, 0.0), 1.0)` in `KellySizer.size`. -/
def kelly_clamp_p (model_price : ℚ) : ℚ :=
  min (max model_price 0) 1

/-- `full_kelly = max(0.0, min(1.0, (p - q) / (1.0 - q)))`. -/
def kelly_full (p q : ℚ) : ℚ :=
  max 0 (min 1 ((p - q) / (1 - q)))

/-- `KellySizer.__init__` clamps: `fraction` into [0,1], `max_usd` to ≥ 0. -/
structure KellySizerCfg where
  fraction : ℚ
  max_usd : ℚ
  deriving DecidableEq, Repr

/-- `KellySizer(fraction, max_usd)` constructor clamping. -/
def KellySizerCfg.make (fraction max_usd : ℚ) : KellySizerCfg :=
  { fraction := min (max fraction 0) 1, max_usd := max max_usd 0 }

/-- `KellySizer.size` from src/polytrader/sizers/kelly.py. -/
def KellySizerCfg.size (cfg : KellySizerCfg) (signal : Signal) (cash : ℚ) :
    Option SizedOrder :=
  let q := kelly_clamp_q signal.market_price
  let p := kelly_clamp_p signal.model_price
  let full_kelly := kelly_full p q
  let scaled := cfg.fraction * full_kelly
  let order_usd := min (min (max cash 0 * scaled) cfg.max_usd) (max cash 0)
  if order_usd ≤ 0 then none
  else some { sizer := "kelly", side := signal.side, token_id := signal.token_id,
              order_usd := order_usd }

/-! ## Ledger  (src/polytrader/db.py, src/polytrader/engine.py)

The sqlite store is modelled as one `DBState`: the single account row,
the count of `runs` rows, and the `trades` table as a list in insertion
order (rows are never deleted; `AUTOINCREMENT` ids are recoverable from
list position and are not claim-relevant). -/

/-- A row of the `trades` table (timestamps and `notes_json` omitted). -/
structure Trade where
  run_id : ℕ
  market_id : String
  market_slug : String
  question : String
  side : String
  token_id : String
  entry_price : ℚ
  shares : ℚ
  notional_usd : ℚ
  model_price : ℚ
  edge : ℚ
  confidence : ℚ
  status : String
  exit_price : Option ℚ
  realized_pnl : Option ℚ
  deriving DecidableEq, Repr

/-- Persisted database state: account row + runs count + trades table. -/
structure DBState where
  starting_bankroll : ℚ
  cash : ℚ
  runs : ℕ
  trades : List Trade
  deriving DecidableEq, Repr

/-- `init_db`: fresh database with `cash = starting_bankroll = bankroll`. -/
def init_db (bankroll : ℚ) : DBState :=
  { starting_bankroll := bankroll, cash := bankroll, runs := 0, trades := [] }

/-- `update_cash(conn, cash)`: sets the account cash (and commits). -/
def update_cash (db : DBState) (cash : ℚ) : DBState :=
  { db with cash := cash }

/-- `insert_run(...)`: appends a `runs` row, returning the new run id. -/
def insert_run (db : DBState) : DBState × ℕ :=
  ({ db with runs := db.runs + 1 }, db.runs + 1)

/-- The column values `insert_trade` receives for one trade
(`placed_rows` entries in `engine.scan_once`; `notional_usd` is the
`spent_usd` of the simulated fill). -/
structure TradeFields where
  market_id : String
  market_slug : String
  question : String
  side : String
  token_id : String
  entry_price : ℚ
  shares : ℚ
  notional_usd : ℚ
  model_price : ℚ
  edge : ℚ
  confidence : ℚ
  deriving DecidableEq, Repr

/-- The row `insert_trade` writes: `status = 'open'`, no exit data. -/
def mk_trade (run_id : ℕ) (f : TradeFields) : Trade :=
  { run_id := run_id
    market_id := f.market_id, market_slug := f.market_slug
    question := f.question, side := f.side, token_id := f.token_id
    entry_price := f.entry_price, shares := f.shares
    notional_usd := f.notional_usd, model_price := f.model_price
    edge := f.edge, confidence := f.confidence
    status := "open", exit_price := none, realized_pnl := none }

/-- `insert_trade(conn, run_id, ...)`: appends an open trade row. -/
def insert_trade (db : DBState) (run_id : ℕ) (f : TradeFields) : DBState :=
  { db with trades := db.trades ++ [mk_trade run_id f] }

/-- Payout per share in `close_market_positions`: 1.0 when the held side
matches the resolved outcome, else 0.0 (unknown sides pay 0.0). -/
def payout_per_share (side : String) (outcome_yes : Bool) : ℚ :=
  if side = "buy_yes" then (if outcome_yes then 1 else 0)
  else if side = "buy_no" then (if outcome_yes then 0 else 1)
  else 0

/-- The `UPDATE trades SET status='closed', ...` applied to one open row in
`close_market_positions`: `exit_price = payout_per_share`,
`realized_pnl = payout - notional = shares * pps - notional`. -/
def settle_trade (outcome_yes : Bool) (t : Trade) : Trade :=
  let pps := payout_per_share t.side outcome_yes
  { t with status := "closed", exit_price := some pps,
           realized_pnl := some (t.shares * pps - t.notional_usd) }

/-- Row selector of `close_market_positions`:
`status = 'open' AND market_slug = slug`. -/
def is_open_on (slug : String) (t : Trade) : Bool :=
  t.status == "open" && t.market_slug == slug

/-- `close_market_positions(conn, slug, outcome_yes)`: credits cash with
each settled trade's payout (the `cash += payout` loop, folded over the
open rows of the slug), rewrites those rows as closed, and returns the
list of closed trades. -/
def close_market_positions (db : DBState) (slug : String) (outcome_yes : Bool) :
    DBState × List Trade :=
  let open_rows := db.trades.filter (is_open_on slug)
  let cash' := open_rows.foldl
    (fun c t => c + t.shares * payout_per_share t.side outcome_yes) db.cash
  ({ db with
       cash := cash'
       trades := db.trades.map
         (fun t => if is_open_on slug t then settle_trade outcome_yes t else t) },
   open_rows.map (settle_trade outcome_yes))

/-- A ledger operation as the spec's §4.7 interface exposes them: `open`
(the debit + insert pair of `engine.scan_once`) or `settle`
(`close_market_positions`). -/
inductive LedgerOp where
  | openT (run_id : ℕ) (f : TradeFields)
  | settle (slug : String) (outcome_yes : Bool)

/-- Apply one ledger operation to the database state. -/
def apply_op (db : DBState) : LedgerOp → DBState
  | .openT run_id f => insert_trade (update_cash db (db.cash - f.notional_usd)) run_id f
  | .settle slug outcome_yes => (close_market_positions db slug outcome_yes).1

/-- Apply a sequence of ledger operations. -/
def apply_ops (db : DBState) (ops : List LedgerOp) : DBState :=
  ops.foldl apply_op db

/-- Sum of `realized_pnl` over closed trades. -/
def closed_pnl_sum (ts : List Trade) : ℚ :=
  ((ts.filter (fun t => t.status == "closed")).map
    (fun t => t.realized_pnl.getD 0)).sum

/-- Sum of `notional_usd` over open trades. -/
def open_notional_sum (ts : List Trade) : ℚ :=
  ((ts.filter (fun t => t.status == "open")).map (fun t => t.notional_usd)).sum

/-- Total payout credited when settling `slug` with outcome `outcome_yes`. -/
def payout_total (slug : String) (outcome_yes : Bool) (ts : List Trade) : ℚ :=
  ((ts.filter (is_open_on slug)).map
    (fun t => t.shares * payout_per_share t.side outcome_yes)).sum

/-! ### Commit-level trace of `engine.scan_once`

Each `db` helper in the source issues its own `conn.commit()`, so the
persisted states visible to a concurrent reader during one scan cycle
are: one state per `update_cash` debit in the fill loop, one after
`insert_run`, and one per `insert_trade` in the trailing loop. -/

/-- Debit phase of `scan_once`: `cash -= fill.spent_usd; update_cash`
per successful fill, in order. Returns every persisted snapshot. -/
def debit_states (db : DBState) : List TradeFields → List DBState
  | [] => []
  | f :: rest =>
      let db' := update_cash db (db.cash - f.notional_usd)
      db' :: debit_states db' rest

/-- Insert phase of `scan_once`: `insert_trade` per placed row, in order.
Returns every persisted snapshot. -/
def insert_states (db : DBState) (run_id : ℕ) : List TradeFields → List DBState
  | [] => []
  | f :: rest =>
      let db' := insert_trade db run_id f
      db' :: insert_states db' run_id rest

/-- All database states persisted during one `scan_once` cycle whose
successful fills are `fills`, in commit order: the per-fill cash debits,
then the run row, then the per-fill trade rows. -/
def scan_states (db : DBState) (fills : List TradeFields) : List DBState :=
  let ds := debit_states db fills
  let db1 := ds.getLastD db
  let dbr := (insert_run db1).1
  ds ++ dbr :: insert_states dbr (insert_run db1).2 fills

/-! ## Gate state machine  (src/spread_monitor.py)

`gate_state` is a dict of three per-slug maps; each map is modelled as an
association list in insertion order (`dict` preserves it). Run indices
are stored as `float(run_seq)` of an `int` in the source, so the
`last_signal_run` map carries ℤ values here; `int(...)` reads are exact. -/

/-- Association-list lookup with default: `m.get(k, d)` (first matching
key wins; the modelled dicts never carry duplicate keys). -/
def dict_get {b : Type} : List (String × b) → String → b → b
  | [], _, d => d
  | kv :: m, k, d => if kv.1 == k then kv.2 else dict_get m k d

/-- `m[k] = v` on an association list: update in place, else append. -/
def dict_set {b : Type} (m : List (String × b)) (k : String) (v : b) :
    List (String × b) :=
  if m.any (fun kv => kv.1 == k) then
    m.map (fun kv => if kv.1 == k then (k, v) else kv)
  else m ++ [(k, v)]

/-- Lookup on a ℚ-valued per-slug dict. -/
def lookupD (m : List (String × ℚ)) (k : String) (d : ℚ) : ℚ := dict_get m k d

/-- Lookup on the run-index per-slug dict. -/
def lookupZ (m : List (String × ℤ)) (k : String) (d : ℤ) : ℤ := dict_get m k d

/-- Store on a ℚ-valued per-slug dict. -/
def setK (m : List (String × ℚ)) (k : String) (v : ℚ) : List (String × ℚ) :=
  dict_set m k v

/-- Store on the run-index per-slug dict. -/
def setZ (m : List (String × ℤ)) (k : String) (v : ℤ) : List (String × ℤ) :=
  dict_set m k v

/-- `gate_state = {"streak_by_slug": .., "last_signal_run": ..,
"last_signal_edge": ..}`. -/
structure GateState where
  streak_by_slug : List (String × ℚ)
  last_signal_run : List (String × ℤ)
  last_signal_edge : List (String × ℚ)
  deriving DecidableEq, Repr

/-- The fields of one evaluated opportunity dict that the gating code
reads (`slug`, `net_edge`, `persist_runs`, `order_usd`; `token` and
`choice` only feed the submission payload / logs). -/
structure Opp where
  slug : String
  net_edge : ℚ
  persist_runs : ℤ
  order_usd : ℚ
  token : String
  deriving DecidableEq, Repr

/-- Every way one `maybe_execute` call can end, by the log record it
writes (`decision` alone means the edge was below threshold; firing is
`paper_trade_signal` or `live_order_submitted`). -/
inductive ExecResult where
  | below_threshold
  | blocked_persistence
  | blocked_cooldown
  | paper_fired
  | blocked_missing_confirm
  | blocked_over_cap
  | live_fired (amount : ℚ)
  deriving DecidableEq, Repr

/-- Python's `round` to the nearest integer, ties to even (banker's
rounding), on exact rationals. -/
def round_half_even (y : ℚ) : ℤ :=
  if y - y.floor = 1 / 2 then (if 2 ∣ y.floor then y.floor else y.floor + 1)
  else (y + 1 / 2).floor

/-- `round(x, 2)`: the submitted USD amount string in `maybe_execute`. -/
def round2 (x : ℚ) : ℚ :=
  (round_half_even (x * 100) : ℚ) / 100

/-- `maybe_execute` from src/spread_monitor.py: threshold check,
persistence gate, cooldown/improvement gate, paper/live branching with
the live cap, and the last-signal bookkeeping on a fired signal.
Returns the outcome and the updated gate state. -/
def maybe_execute (opp : Opp) (threshold : ℚ) (execute_live confirm_live : Bool)
    (max_live_order_usd : ℚ) (run_seq : ℤ) (gate_state : GateState)
    (min_persist_runs : ℤ) (signal_cooldown_runs : ℤ) (min_improvement_bps : ℚ) :
    ExecResult × GateState :=
  let net_edge := opp.net_edge
  let persist_runs := opp.persist_runs
  if net_edge < threshold then (.below_threshold, gate_state)
  else if persist_runs < min_persist_runs then (.blocked_persistence, gate_state)
  else
    let last_run := lookupZ gate_state.last_signal_run opp.slug (-(10 ^ 9))
    let last_edge := lookupD gate_state.last_signal_edge opp.slug (-(10 ^ 9))
    let runs_since := run_seq - last_run
    let improvement_bps : ℚ :=
      if last_edge > -(10 ^ 8) then (net_edge - last_edge) * 10000 else 10 ^ 9
    if runs_since < signal_cooldown_runs ∧ improvement_bps < min_improvement_bps then
      (.blocked_cooldown, gate_state)
    else if !execute_live then
      (.paper_fired,
       { gate_state with
           last_signal_run := setZ gate_state.last_signal_run opp.slug run_seq
           last_signal_edge := setK gate_state.last_signal_edge opp.slug net_edge })
    else if !confirm_live then (.blocked_missing_confirm, gate_state)
    else if opp.order_usd > max_live_order_usd then (.blocked_over_cap, gate_state)
    else
      (.live_fired (round2 opp.order_usd),
       { gate_state with
           last_signal_run := setZ gate_state.last_signal_run opp.slug run_seq
           last_signal_edge := setK gate_state.last_signal_edge opp.slug net_edge })

/-- `pass_slugs` in `run_scan`: slugs of opportunities whose net edge is
at or above the acting threshold this cycle. -/
def pass_slugs (opps : List Opp) (threshold : ℚ) : List String :=
  (opps.filter (fun o => threshold ≤ o.net_edge)).map (fun o => o.slug)

/-- The second `run_scan` streak loop: per opportunity, bump or reset the
slug's streak and annotate the opportunity with `persist_runs =
int(streak[slug])` (empty slugs are skipped and annotated 0). -/
def annotate_persist (streak : List (String × ℚ)) (ps : List String) :
    List Opp → List (String × ℚ) × List Opp
  | [] => (streak, [])
  | o :: rest =>
      if o.slug = "" then
        let r := annotate_persist streak ps rest
        (r.1, { o with persist_runs := 0 } :: r.2)
      else
        let v : ℚ := if ps.contains o.slug then lookupD streak o.slug 0 + 1 else 0
        let r := annotate_persist (setK streak o.slug v) ps rest
        (r.1, { o with persist_runs := v.floor } :: r.2)

/-- The streak portion of `run_scan` (lines 574-589): reset every tracked
slug that did not clear threshold, then walk the opportunities bumping
streaks and annotating `persist_runs`. -/
def run_scan_gate_update (gs : GateState) (opps : List Opp) (threshold : ℚ) :
    List (String × ℚ) × List Opp :=
  let ps := pass_slugs opps threshold
  let streak0 := gs.streak_by_slug.map
    (fun kv => if ps.contains kv.1 then kv else (kv.1, (0 : ℚ)))
  annotate_persist streak0 ps opps

/-- The relevant arguments of the monitor CLI after parsing
(`build_parser` / runtime config overrides). -/
structure Args where
  live_order_usd : ℚ
  kelly_fraction : ℚ
  paper_only : Bool
  execute_live : Bool
  confirm_live : Bool
  min_persist_runs : ℤ
  signal_cooldown_runs : ℤ
  min_improvement_bps : ℚ
  threshold : ℚ
  deriving DecidableEq, Repr

/-- `validate_args`: `true` when no `SystemExit` guard fires. -/
def validate_args (a : Args) : Bool :=
  decide (a.live_order_usd ≤ 5) &&
  (decide (0 ≤ a.kelly_fraction) && decide (a.kelly_fraction ≤ 1)) &&
  !(a.paper_only && a.execute_live) &&
  decide (1 ≤ a.min_persist_runs) &&
  decide (0 ≤ a.signal_cooldown_runs) &&
  decide (0 ≤ a.min_improvement_bps)

/-- Descending stable sort by net edge:
`opportunities.sort(key=net_edge, reverse=True)`. -/
def sort_by_net_edge (opps : List Opp) : List Opp :=
  opps.mergeSort (fun a b => decide (b.net_edge ≤ a.net_edge))

/-- The gate portion of one full `run_scan` cycle: streak update and
annotation, then `maybe_execute` over the top five candidates by net
edge, threading the gate state. Returns the final gate state, the new
streak map, and each processed candidate's outcome. -/
def run_gate_cycle (gs : GateState) (opps : List Opp) (a : Args)
    (run_seq : ℤ) : GateState × List (Opp × ExecResult) :=
  let u := run_scan_gate_update gs opps a.threshold
  let gs1 := { gs with streak_by_slug := u.1 }
  let top := (sort_by_net_edge u.2).take 5
  top.foldl
    (fun acc o =>
      let r := maybe_execute o a.threshold a.execute_live a.confirm_live
        a.live_order_usd run_seq acc.1 a.min_persist_runs
        a.signal_cooldown_runs a.min_improvement_bps
      (r.2, acc.2 ++ [(o, r.1)]))
    (gs1, [])

/-! ## Fair-value estimator  (src/spread_monitor.py)

`math.erf` is the error function; Mathlib has no named `erf`, so it is
defined here by its integral. `norm_cdf` and `probability_price_above`
then follow the source line by line over ℝ. -/

open MeasureTheory in
/-- The error function `math.erf`:
`erf x = (2 / √π) ∫ t in 0..x, exp (-t²)`. -/
noncomputable def erf (x : ℝ) : ℝ :=
  (2 / Real.sqrt Real.pi) * ∫ t in (0 : ℝ)..x, Real.exp (-(t ^ 2))

/-- `norm_cdf(x) = 0.5 * (1.0 + math.erf(x / math.sqrt(2.0)))`. -/
noncomputable def norm_cdf (x : ℝ) : ℝ :=
  0.5 * (1 + erf (x / Real.sqrt 2))

/-- `RefMarket` dataclass (string source tags omitted). -/
structure RefMarket where
  spot : ℝ
  perp : ℝ
  basis_annual : ℝ
  sigma_annual : ℝ

/-- `probability_price_above(ref, strike, t_years)` from
src/spread_monitor.py: floors spot at 1e-9 and volatility at 1e-6,
standardizes `z = (ln(s/K) + (mu - sigma²/2) t) / (sigma √t)` and clamps
the normal CDF into [0,1]. -/
noncomputable def probability_price_above (ref : RefMarket) (strike t_years : ℝ) : ℝ :=
  let s := max ref.spot (1 / 1000000000)
  let sigma := max ref.sigma_annual (1 / 1000000)
  let mu := ref.basis_annual
  let z := (Real.log (s / strike) + (mu - 0.5 * sigma * sigma) * t_years) /
    (sigma * Real.sqrt t_years)
  min (max (norm_cdf z) 0) 1

/-- `model_yes` in `evaluate_market`: the at-or-below probability is the
complement of the at-or-above one. -/
noncomputable def model_yes_prob (kind_below : Bool) (ref : RefMarket)
    (strike t_years : ℝ) : ℝ :=
  if kind_below then 1 - probability_price_above ref strike t_years
  else probability_price_above ref strike t_years

/-! ## Helper lemmas -/

theorem fill_walk_spent_le (asks : List BookLevel) :
    ∀ (remaining spent shares : ℚ) (levels : ℕ), 0 ≤ remaining →
      (fill_walk asks remaining spent shares levels).1 ≤ spent + remaining := by
  induction asks with
  | nil =>
      intro remaining spent shares levels hr
      simp only [fill_walk]
      linarith
  | cons lvl rest ih =>
      intro remaining spent shares levels hr
      match lvl with
      | none => simpa [fill_walk] using ih remaining spent shares levels hr
      | some (px, sz) =>
          by_cases hbad : px ≤ 0 ∨ sz ≤ 0
          · simpa [fill_walk, hbad] using ih remaining spent shares levels hr
          · have htake : min remaining (px * sz) ≤ remaining := min_le_left _ _
            by_cases hstop : remaining - min remaining (px * sz) ≤ 1 / 1000000000
            · simp only [fill_walk, if_neg hbad, if_pos hstop]
              linarith
            · have hr' : 0 ≤ remaining - min remaining (px * sz) := by linarith
              have := ih (remaining - min remaining (px * sz))
                (spent + min remaining (px * sz))
                (shares + min remaining (px * sz) / px) (levels + 1) hr'
              simp only [fill_walk, if_neg hbad, if_neg hstop]
              linarith

theorem fill_walk_invalid (asks : List BookLevel)
    (h : ∀ lvl ∈ asks, invalid_level lvl) (remaining spent shares : ℚ)
    (levels : ℕ) :
    fill_walk asks remaining spent shares levels = (spent, shares, levels) := by
  induction asks generalizing remaining spent shares levels with
  | nil => simp [fill_walk]
  | cons lvl rest ih =>
      have hrest : ∀ l ∈ rest, invalid_level l := fun l hl => h l (List.mem_cons_of_mem _ hl)
      match lvl with
      | none => simpa [fill_walk] using ih hrest remaining spent shares levels
      | some (px, sz) =>
          have hbad : px ≤ 0 ∨ sz ≤ 0 := h (some (px, sz)) (List.mem_cons_self _ _)
          simpa [fill_walk, hbad] using ih hrest remaining spent shares levels

/-! ## C6: Kelly fraction bounds -/

/-- C6: for every model probability and market price (unconditionally),
the clamped market price `kelly_clamp_q` lies in (0,1) and the full Kelly
fraction `max(0, min(1, (p - q)/(1 - q)))` lies in [0,1]; and whenever
the clamped `p` is at most the clamped `q` the fraction is 0 and
`KellySizer.size` returns no order, for any sizer configuration and
cash. -/
theorem kelly_fraction_bounds (cfg : KellySizerCfg) (signal : Signal) (cash : ℚ) :
    (0 < kelly_clamp_q signal.market_price ∧ kelly_clamp_q signal.market_price < 1) ∧
    (0 ≤ kelly_full (kelly_clamp_p signal.model_price) (kelly_clamp_q signal.market_price) ∧
      kelly_full (kelly_clamp_p signal.model_price) (kelly_clamp_q signal.market_price) ≤ 1) ∧
    (kelly_clamp_p signal.model_price ≤ kelly_clamp_q signal.market_price →
      kelly_full (kelly_clamp_p signal.model_price) (kelly_clamp_q signal.market_price) = 0 ∧
      cfg.size signal cash = none) := by
  set p := kelly_clamp_p signal.model_price with hp
  set q := kelly_clamp_q signal.market_price with hq
  have hq0 : 0 < q := by
    rw [hq, kelly_clamp_q]
    have h1 : (0 : ℚ) < 1 / 1000000 := by norm_num
    have h2 : (1 : ℚ) / 1000000 ≤ max signal.market_price (1 / 1000000) :=
      le_max_right _ _
    exact lt_min (lt_of_lt_of_le h1 h2) (by norm_num)
  have hq1 : q < 1 := by
    rw [hq, kelly_clamp_q]
    exact lt_of_le_of_lt (min_le_right _ _) (by norm_num)
  refine ⟨⟨hq0, hq1⟩, ⟨le_max_left _ _, max_le (by norm_num) (min_le_left _ _)⟩,
    fun hpq => ?_⟩
  have hfull0 : kelly_full p q = 0 := by
    have hnum : p - q ≤ 0 := by linarith
    have hden : 0 < 1 - q := by linarith
    have hr : (p - q) / (1 - q) ≤ 0 := div_nonpos_of_nonpos_of_nonneg hnum hden.le
    have : min 1 ((p - q) / (1 - q)) ≤ 0 := le_trans (min_le_right _ _) hr
    rw [kelly_full]
    exact max_eq_left this
  refine ⟨hfull0, ?_⟩
  rw [KellySizerCfg.size]
  have hord : min (min (max cash 0 * (cfg.fraction * kelly_full p q)) cfg.max_usd)
      (max cash 0) ≤ 0 := by
    have : max cash 0 * (cfg.fraction * kelly_full p q) = 0 := by
      rw [hfull0]; ring
    calc min (min (max cash 0 * (cfg.fraction * kelly_full p q)) cfg.max_usd) (max cash 0)
        ≤ min (max cash 0 * (cfg.fraction * kelly_full p q)) cfg.max_usd := min_le_left _ _
      _ ≤ max cash 0 * (cfg.fraction * kelly_full p q) := min_le_left _ _
      _ = 0 := this
  simp only [← hp, ← hq, if_pos hord]

/-- C6 witness: a signal priced at 0.5 with model probability 0.9 has its
Kelly fraction inside [0,1], and one with model probability 0.3 (p ≤ q)
yields fraction 0 and no order under the default Kelly sizer. -/
theorem kelly_fraction_bounds_witness :
    (0 ≤ kelly_full (kelly_clamp_p (9 / 10)) (kelly_clamp_q (1 / 2)) ∧
      kelly_full (kelly_clamp_p (9 / 10)) (kelly_clamp_q (1 / 2)) ≤ 1) ∧
    kelly_clamp_p (3 / 10) ≤ kelly_clamp_q (1 / 2) ∧
    kelly_full (kelly_clamp_p (3 / 10)) (kelly_clamp_q (1 / 2)) = 0 ∧
    (KellySizerCfg.make (1 / 4) 250).size
      { model := "kelly_gbm", side := "buy_yes", token_id := "tok",
        market_price := 1 / 2, model_price := 3 / 10, edge := 0, confidence := 1 }
      1000 = none := by
  have hhi := kelly_fraction_bounds (KellySizerCfg.make (1 / 4) 250)
    { model := "kelly_gbm", side := "buy_yes", token_id := "tok",
      market_price := 1 / 2, model_price := 9 / 10, edge := 0, confidence := 1 }
    1000
  have hlo := kelly_fraction_bounds (KellySizerCfg.make (1 / 4) 250)
    { model := "kelly_gbm", side := "buy_yes", token_id := "tok",
      market_price := 1 / 2, model_price := 3 / 10, edge := 0, confidence := 1 }
    1000
  have hpq : kelly_clamp_p (3 / 10) ≤ kelly_clamp_q (1 / 2) := by
    norm_num [kelly_clamp_p, kelly_clamp_q]
  exact ⟨hhi.2.1, hpq, (hlo.2.2 hpq).1, (hlo.2.2 hpq).2⟩

/-! ## C7: fill invariant -/

/-- C7: whenever `simulate_buy` returns a fill, the spent amount is at
most the requested notional and equals shares × average price (exactly,
over ℚ); `simulate_buy` returns `None` on a non-positive request, and on
any book from which no shares can be acquired (every level unparseable
or with non-positive price or size). -/
theorem fill_invariant (asks : List BookLevel) (usd_amount : ℚ) :
    (∀ fr, simulate_buy asks usd_amount = some fr →
       fr.spent_usd ≤ usd_amount ∧ fr.spent_usd = fr.shares * fr.avg_price) ∧
    (usd_amount ≤ 0 → simulate_buy asks usd_amount = none) ∧
    ((∀ lvl ∈ asks, invalid_level lvl) → simulate_buy asks usd_amount = none) := by
  refine ⟨?_, ?_, ?_⟩
  · intro fr hfr
    rw [simulate_buy] at hfr
    by_cases hpos : usd_amount ≤ 0
    · simp [hpos] at hfr
    · simp only [if_neg hpos] at hfr
      by_cases hguard : (fill_walk asks usd_amount 0 0 0).2.1 ≤ 0 ∨
          (fill_walk asks usd_amount 0 0 0).1 ≤ 0
      · simp [hguard] at hfr
      · simp only [if_neg hguard, Option.some.injEq] at hfr
        push_neg at hguard
        have hshares : (fill_walk asks usd_amount 0 0 0).2.1 ≠ 0 := ne_of_gt hguard.1
        have hle : (fill_walk asks usd_amount 0 0 0).1 ≤ usd_amount := by
          have := fill_walk_spent_le asks usd_amount 0 0 0 (le_of_not_le hpos)
          linarith
        subst hfr
        refine ⟨hle, ?_⟩
        dsimp only
        rw [mul_comm]
        exact (div_mul_cancel₀ _ hshares).symm
  · intro hpos
    simp [simulate_buy, hpos]
  · intro hinv
    rw [simulate_buy, fill_walk_invalid asks hinv]
    simp

/-- C7 witness: the spec's two-level book `[(0.40,100), (0.45,50)]` with a
$50 request spends exactly $50 = shares × average price. -/
theorem fill_invariant_witness :
    simulate_buy [some ((2 : ℚ) / 5, 100), some ((9 : ℚ) / 20, 50)] 50 =
      some { avg_price := 9 / 22, shares := 1100 / 9, spent_usd := 50,
             levels_used := 2, slippage_bps := 2500 / 11 } ∧
    (50 : ℚ) ≤ 50 ∧ (50 : ℚ) = (1100 / 9) * (9 / 22) := by
  have hfr : simulate_buy [some ((2 : ℚ) / 5, 100), some ((9 : ℚ) / 20, 50)] 50 =
      some { avg_price := 9 / 22, shares := 1100 / 9, spent_usd := 50,
             levels_used := 2, slippage_bps := 2500 / 11 } := by
    norm_num [simulate_buy, fill_walk, top_ask_price]
  have h := (fill_invariant [some ((2 : ℚ) / 5, 100), some ((9 : ℚ) / 20, 50)] 50).1
    _ hfr
  exact ⟨hfr, h.1, h.2⟩

/-! ## C9: slippage baseline -/

/-- C9 counterexample: on the book `[(0.0, 5), (0.5, 100)]` with a $10
request, the walk skips the invalid first level and fills entirely at the
first level with positive price and size (price 0.5, which is also the
average price), so the claim predicts slippage `((0.5/0.5) - 1)*10000 = 0`;
the code instead measures against `asks[0]`'s non-positive price (clamped
to 1e-9) and reports 4999999990000 bps. -/
theorem slippage_first_level_cex :
    simulate_buy [some ((0 : ℚ), 5), some ((1 : ℚ) / 2, 100)] 10 =
      some { avg_price := 1 / 2, shares := 20, spent_usd := 10, levels_used := 1,
             slippage_bps := 4999999990000 } ∧
    first_valid_price [some ((0 : ℚ), 5), some ((1 : ℚ) / 2, 100)] = some (1 / 2) ∧
    (((1 : ℚ) / 2) / (1 / 2) - 1) * 10000 = 0 ∧
    (4999999990000 : ℚ) ≠ 0 := by
  refine ⟨?_, ?_, by norm_num, by norm_num⟩
  · norm_num [simulate_buy, fill_walk, top_ask_price]
  · norm_num [first_valid_price]

/-- Whenever `simulate_buy` returns a fill, its `slippage_bps` field is
the code's formula against `top_ask_price` (the `asks[0]` baseline with
the avg-price fallback and the 1e-9 clamp). -/
theorem simulate_buy_slippage_eq (asks : List BookLevel) (usd : ℚ)
    (fr : FillResult) (hfr : simulate_buy asks usd = some fr) :
    fr.slippage_bps = (fr.avg_price
      / max (top_ask_price asks fr.avg_price) (1 / 1000000000) - 1) * 10000 := by
  rw [simulate_buy] at hfr
  by_cases hpos : usd ≤ 0
  · simp [hpos] at hfr
  · simp only [if_neg hpos] at hfr
    by_cases hguard : (fill_walk asks usd 0 0 0).2.1 ≤ 0 ∨ (fill_walk asks usd 0 0 0).1 ≤ 0
    · simp [hguard] at hfr
    · simp only [if_neg hguard, Option.some.injEq] at hfr
      subst hfr
      rfl

theorem top_ask_price_of_first_listed (asks : List BookLevel) (px : ℚ)
    (hpx : first_listed_price asks = some px) :
    ∀ a : ℚ, top_ask_price asks a = px := by
  intro a
  match asks, hpx with
  | some (p, sz) :: rest, h =>
      simp only [first_listed_price, Option.some.injEq] at h
      simp [top_ask_price, h]

theorem top_ask_price_of_no_first_listed (asks : List BookLevel)
    (hpx : first_listed_price asks = none) :
    ∀ a : ℚ, top_ask_price asks a = a := by
  intro a
  match asks with
  | [] => rfl
  | none :: rest => rfl
  | some (p, sz) :: rest => simp [first_listed_price] at hpx

/-- C9 (amended): for every book and request for which `simulate_buy`
returns a fill, the reported `slippage_bps` equals
`((avg_price / max(P_first, 1e-9)) - 1) × 10000` where `P_first` is the
parsed price of the *first listed* level of the book (whether or not the
walk could consume it); when that price is at least 1e-9 the clamp is
the identity, and when the book's first level is unparseable or absent
the code falls back to the fill's own average price as the baseline. The
baseline is never the first consumable level, the model price or the
pre-trade midpoint. -/
theorem slippage_baseline (asks : List BookLevel) (usd : ℚ) (fr : FillResult)
    (hfr : simulate_buy asks usd = some fr) :
    (∀ px : ℚ, first_listed_price asks = some px →
      fr.slippage_bps = (fr.avg_price / max px (1 / 1000000000) - 1) * 10000 ∧
      (1 / 1000000000 ≤ px →
        fr.slippage_bps = (fr.avg_price / px - 1) * 10000)) ∧
    (first_listed_price asks = none →
      fr.slippage_bps
        = (fr.avg_price / max fr.avg_price (1 / 1000000000) - 1) * 10000) := by
  have hmain := simulate_buy_slippage_eq asks usd fr hfr
  constructor
  · intro px hpx
    rw [top_ask_price_of_first_listed asks px hpx] at hmain
    exact ⟨hmain, fun hge => by rw [hmain, max_eq_left hge]⟩
  · intro hpx
    rw [top_ask_price_of_no_first_listed asks hpx] at hmain
    exact hmain

/-- C9 witness: on the spec's book `[(0.40,100), (0.45,50)]` the first
listed level's price 0.40 is above the clamp floor and the reported
227.27 bps equals `((avg/0.40) - 1) × 10000`; on the book
`[unparseable, (0.5,100)]` the first level is unparseable and the
baseline falls back to the fill's own average price, giving 0 bps. -/
theorem slippage_baseline_witness :
    first_listed_price [some ((2 : ℚ) / 5, 100), some ((9 : ℚ) / 20, 50)] = some (2 / 5) ∧
    (1 : ℚ) / 1000000000 ≤ 2 / 5 ∧
    ({ avg_price := 9 / 22, shares := 1100 / 9, spent_usd := 50,
       levels_used := 2, slippage_bps := 2500 / 11 } : FillResult).slippage_bps
      = (((9 : ℚ) / 22) / (2 / 5) - 1) * 10000 ∧
    first_listed_price [none, some ((1 : ℚ) / 2, 100)] = none ∧
    ({ avg_price := 1 / 2, shares := 20, spent_usd := 10, levels_used := 1,
       slippage_bps := 0 } : FillResult).slippage_bps
      = (((1 : ℚ) / 2) / max ((1 : ℚ) / 2) (1 / 1000000000) - 1) * 10000 := by
  have hfr : simulate_buy [some ((2 : ℚ) / 5, 100), some ((9 : ℚ) / 20, 50)] 50 =
      some { avg_price := 9 / 22, shares := 1100 / 9, spent_usd := 50,
             levels_used := 2, slippage_bps := 2500 / 11 } := by
    norm_num [simulate_buy, fill_walk, top_ask_price]
  have h := (slippage_baseline [some ((2 : ℚ) / 5, 100), some ((9 : ℚ) / 20, 50)] 50
    _ hfr).1 (2 / 5) (by norm_num [first_listed_price])
  have hfr2 : simulate_buy [none, some ((1 : ℚ) / 2, 100)] 10 =
      some { avg_price := 1 / 2, shares := 20, spent_usd := 10, levels_used := 1,
             slippage_bps := 0 } := by
    norm_num [simulate_buy, fill_walk, top_ask_price]
  have h2 := (slippage_baseline [none, some ((1 : ℚ) / 2, 100)] 10 _ hfr2).2
    (by norm_num [first_listed_price])
  exact ⟨by norm_num [first_listed_price], by norm_num, h.2 (by norm_num),
    by norm_num [first_listed_price], h2⟩

/-! ## C2: settlement postcondition -/

theorem foldl_add_sum (f : Trade → ℚ) (l : List Trade) (c : ℚ) :
    l.foldl (fun acc t => acc + f t) c = c + (l.map f).sum := by
  induction l generalizing c with
  | nil => simp
  | cons hd tl ih =>
      simp only [List.foldl_cons, List.map_cons, List.sum_cons, ih (c + f hd)]
      ring

/-- C2: settling a market slug closes exactly its open trades: each open
trade on the slug reappears as `settle_trade` of itself — status closed,
exit price equal to the payout per share (exactly 1 when the held side
matches the resolved outcome and 0 otherwise), realized PnL equal to
`shares × payout_per_share − notional` (i.e. `payout − notional`) — cash
is credited with the total of `shares × payout_per_share` over those
trades, and every trade not open on that slug is carried over unchanged. -/
theorem settlement_postcondition (db : DBState) (slug : String)
    (outcome_yes : Bool) (t : Trade) (ht : t ∈ db.trades) :
    (payout_per_share t.side outcome_yes
       = if (t.side = "buy_yes" ∧ outcome_yes = true) ∨
            (t.side = "buy_no" ∧ outcome_yes = false) then 1 else 0) ∧
    (t.status = "open" → t.market_slug = slug →
       settle_trade outcome_yes t ∈ (close_market_positions db slug outcome_yes).1.trades ∧
       (settle_trade outcome_yes t).status = "closed" ∧
       (settle_trade outcome_yes t).exit_price = some (payout_per_share t.side outcome_yes) ∧
       (settle_trade outcome_yes t).realized_pnl
         = some (t.shares * payout_per_share t.side outcome_yes - t.notional_usd)) ∧
    (¬ (t.status = "open" ∧ t.market_slug = slug) →
       t ∈ (close_market_positions db slug outcome_yes).1.trades) ∧
    (close_market_positions db slug outcome_yes).1.cash
       = db.cash + payout_total slug outcome_yes db.trades := by
  refine ⟨?_, ?_, ?_, ?_⟩
  · by_cases h1 : t.side = "buy_yes"
    · cases outcome_yes <;> simp [payout_per_share, h1]
    · by_cases h2 : t.side = "buy_no"
      · cases outcome_yes <;> simp [payout_per_share, h1, h2]
      · cases outcome_yes <;> simp [payout_per_share, h1, h2]
  · intro hst hsl
    have hopen : is_open_on slug t = true := by
      simp [is_open_on, hst, hsl]
    refine ⟨?_, rfl, rfl, rfl⟩
    simp only [close_market_positions]
    have : settle_trade outcome_yes t
        = (fun u => if is_open_on slug u then settle_trade outcome_yes u else u) t := by
      simp [hopen]
    rw [this]
    exact List.mem_map_of_mem _ ht
  · intro hnot
    have hopen : is_open_on slug t = false := by
      simp only [is_open_on, Bool.and_eq_true, beq_iff_eq] at *
      rcases not_and_or.1 hnot with h | h
      · simp [Bool.and_eq_false_iff, h]
      · simp [Bool.and_eq_false_iff, h]
    simp only [close_market_positions]
    have heq : (fun u => if is_open_on slug u then settle_trade outcome_yes u else u) t = t := by
      simp [hopen]
    have hmem := List.mem_map_of_mem
      (fun u => if is_open_on slug u then settle_trade outcome_yes u else u) ht
    rw [heq] at hmem
    exact hmem
  · simp only [close_market_positions, payout_total]
    exact foldl_add_sum _ _ _

/-- The spec's settlement example: a `buy_yes` trade of 200 shares and $80
notional. -/
def example_trade : Trade :=
  mk_trade 1
    { market_id := "mkt1", market_slug := "m", question := "q",
      side := "buy_yes", token_id := "tok", entry_price := 2 / 5, shares := 200,
      notional_usd := 80, model_price := 1 / 2, edge := 1 / 10, confidence := 1 }

/-- The account holding the example trade. -/
def example_db : DBState :=
  { starting_bankroll := 100, cash := 20, runs := 1, trades := [example_trade] }

/-- C2 witness: the example trade settled yes pays $1.00 per share for a
$200 payout and $120 realized PnL; settled no it pays $0.00 per share for
a $0 payout and −$80 realized PnL. -/
theorem settlement_postcondition_witness :
    example_trade ∈ example_db.trades ∧
    example_trade.status = "open" ∧ example_trade.market_slug = "m" ∧
    payout_per_share example_trade.side true = 1 ∧
    payout_per_share example_trade.side false = 0 ∧
    (settle_trade true example_trade).realized_pnl = some 120 ∧
    (settle_trade false example_trade).realized_pnl = some (-80) ∧
    (close_market_positions example_db "m" true).1.cash = 220 ∧
    (close_market_positions example_db "m" false).1.cash = 20 := by
  have htmem : example_trade ∈ example_db.trades := by
    simp [example_db]
  have hy := settlement_postcondition example_db "m" true example_trade htmem
  have hn := settlement_postcondition example_db "m" false example_trade htmem
  have hy1 : payout_per_share example_trade.side true = 1 := by
    rw [hy.1]; simp [example_trade, mk_trade]
  have hn1 : payout_per_share example_trade.side false = 0 := by
    rw [hn.1]; simp [example_trade, mk_trade]
  have hys := hy.2.1 (by rfl) (by rfl)
  have hns := hn.2.1 (by rfl) (by rfl)
  refine ⟨htmem, rfl, rfl, hy1, hn1, ?_, ?_, ?_, ?_⟩
  · rw [hys.2.2.2, hy1]
    norm_num [example_trade, mk_trade]
  · rw [hns.2.2.2, hn1]
    norm_num [example_trade, mk_trade]
  · rw [hy.2.2.2]
    norm_num [example_db, example_trade, mk_trade, payout_total, is_open_on,
      payout_per_share]
  · rw [hn.2.2.2]
    norm_num [example_db, example_trade, mk_trade, payout_total, is_open_on,
      payout_per_share]

/-! ## C1: cash conservation -/

theorem closed_pnl_sum_cons (t : Trade) (ts : List Trade) :
    closed_pnl_sum (t :: ts)
      = (if t.status = "closed" then t.realized_pnl.getD 0 else 0) + closed_pnl_sum ts := by
  by_cases h : t.status = "closed" <;>
    simp [closed_pnl_sum, List.filter_cons, h]

theorem open_notional_sum_cons (t : Trade) (ts : List Trade) :
    open_notional_sum (t :: ts)
      = (if t.status = "open" then t.notional_usd else 0) + open_notional_sum ts := by
  by_cases h : t.status = "open" <;>
    simp [open_notional_sum, List.filter_cons, h]

theorem payout_total_cons (slug : String) (outcome_yes : Bool) (t : Trade)
    (ts : List Trade) :
    payout_total slug outcome_yes (t :: ts)
      = (if is_open_on slug t then t.shares * payout_per_share t.side outcome_yes else 0)
        + payout_total slug outcome_yes ts := by
  by_cases h : is_open_on slug t <;>
    simp [payout_total, List.filter_cons, h]

theorem closed_pnl_sum_append_one (ts : List Trade) (t : Trade) :
    closed_pnl_sum (ts ++ [t])
      = closed_pnl_sum ts + (if t.status = "closed" then t.realized_pnl.getD 0 else 0) := by
  by_cases h : t.status = "closed" <;>
    simp [closed_pnl_sum, List.filter_append, List.filter_cons, h]

theorem open_notional_sum_append_one (ts : List Trade) (t : Trade) :
    open_notional_sum (ts ++ [t])
      = open_notional_sum ts + (if t.status = "open" then t.notional_usd else 0) := by
  by_cases h : t.status = "open" <;>
    simp [open_notional_sum, List.filter_append, List.filter_cons, h]

theorem settle_sums (slug : String) (outcome_yes : Bool) (ts : List Trade) :
    closed_pnl_sum (ts.map
        (fun t => if is_open_on slug t then settle_trade outcome_yes t else t))
      - open_notional_sum (ts.map
        (fun t => if is_open_on slug t then settle_trade outcome_yes t else t))
      = closed_pnl_sum ts - open_notional_sum ts
        + payout_total slug outcome_yes ts := by
  induction ts with
  | nil => simp [closed_pnl_sum, open_notional_sum, payout_total]
  | cons t rest ih =>
      by_cases h : is_open_on slug t
      · have hst : t.status = "open" := by
          simp only [is_open_on, Bool.and_eq_true, beq_iff_eq] at h
          exact h.1
        have hsettled_closed : (settle_trade outcome_yes t).status = "closed" := rfl
        have hsettled_pnl : (settle_trade outcome_yes t).realized_pnl.getD 0
            = t.shares * payout_per_share t.side outcome_yes - t.notional_usd := rfl
        simp only [List.map_cons, if_pos h, closed_pnl_sum_cons, open_notional_sum_cons,
          payout_total_cons, hsettled_closed, hsettled_pnl, hst]
        rw [if_neg (by decide : ¬ ("closed" : String) = "open"),
          if_neg (by decide : ¬ ("open" : String) = "closed")]
        simp only [if_true]
        linarith [ih]
      · have hcopy : (if is_open_on slug t then settle_trade outcome_yes t else t) = t :=
          if_neg h
        simp only [List.map_cons, hcopy, closed_pnl_sum_cons, open_notional_sum_cons,
          payout_total_cons, if_neg h]
        linarith [ih]

theorem apply_op_starting_bankroll (db : DBState) (op : LedgerOp) :
    (apply_op db op).starting_bankroll = db.starting_bankroll := by
  cases op with
  | openT rid f => rfl
  | settle slug outcome_yes => rfl

theorem apply_op_inv (db : DBState) (op : LedgerOp)
    (h : db.cash = db.starting_bankroll + closed_pnl_sum db.trades
      - open_notional_sum db.trades) :
    (apply_op db op).cash
      = (apply_op db op).starting_bankroll
        + closed_pnl_sum (apply_op db op).trades
        - open_notional_sum (apply_op db op).trades := by
  cases op with
  | openT rid f =>
      have hstatus : (mk_trade rid f).status = "open" := rfl
      have hnot : (mk_trade rid f).notional_usd = f.notional_usd := rfl
      simp only [apply_op, insert_trade, update_cash, closed_pnl_sum_append_one,
        open_notional_sum_append_one, hstatus, hnot]
      rw [if_neg (by decide : ¬ ("open" : String) = "closed")]
      simp only [if_true]
      linarith
  | settle slug outcome_yes =>
      have hcash : (apply_op db (.settle slug outcome_yes)).cash
          = db.cash + payout_total slug outcome_yes db.trades := by
        simp only [apply_op, close_market_positions, payout_total]
        exact foldl_add_sum _ _ _
      rw [hcash]
      have := settle_sums slug outcome_yes db.trades
      simp only [apply_op, close_market_positions]
      linarith

theorem apply_ops_inv (ops : List LedgerOp) :
    ∀ db : DBState,
      db.cash = db.starting_bankroll + closed_pnl_sum db.trades
        - open_notional_sum db.trades →
      (apply_ops db ops).cash
        = (apply_ops db ops).starting_bankroll
          + closed_pnl_sum (apply_ops db ops).trades
          - open_notional_sum (apply_ops db ops).trades := by
  induction ops with
  | nil => intro db h; simpa [apply_ops] using h
  | cons op rest ih =>
      intro db h
      have hstep := apply_op_inv db op h
      simpa [apply_ops] using ih (apply_op db op) hstep

/-- C1: starting from a freshly initialized account, after any sequence of
ledger opens (each debiting the trade's notional while appending the open
trade) and market settlements (each crediting the settled payouts), the
account cash equals the starting capital plus the realized PnL of all
closed trades minus the notional of all currently open trades. -/
theorem cash_conservation (bankroll : ℚ) (ops : List LedgerOp) :
    (apply_ops (init_db bankroll) ops).cash
      = bankroll + closed_pnl_sum (apply_ops (init_db bankroll) ops).trades
        - open_notional_sum (apply_ops (init_db bankroll) ops).trades := by
  have hsb : ∀ (ops' : List LedgerOp) (db : DBState),
      (apply_ops db ops').starting_bankroll = db.starting_bankroll := by
    intro ops'
    induction ops' with
    | nil => intro db; rfl
    | cons op rest ih =>
        intro db
        simpa [apply_ops, apply_op_starting_bankroll] using ih (apply_op db op)
  have hinit : (init_db bankroll).cash
      = (init_db bankroll).starting_bankroll
        + closed_pnl_sum (init_db bankroll).trades
        - open_notional_sum (init_db bankroll).trades := by
    simp [init_db, closed_pnl_sum, open_notional_sum]
  have h := apply_ops_inv ops (init_db bankroll) hinit
  rw [h, hsb ops (init_db bankroll)]
  rfl

/-! ## C3: open atomicity (commit-level trace of `scan_once`) -/

theorem getLastD_cons_eq {α : Type} (a : α) (l : List α) (d : α) :
    (a :: l).getLastD d = l.getLastD a := by
  cases l with
  | nil => rfl
  | cons b bs =>
      simp only [List.getLastD_eq_getLast?, List.getLast?_cons_cons]
      cases h : (b :: bs).getLast? with
      | none => exact absurd (List.getLast?_eq_none_iff.1 h) (by simp)
      | some v => rfl

theorem getLastD_append_cons {α : Type} (xs : List α) (y : α) (zs : List α)
    (d : α) : (xs ++ y :: zs).getLastD d = zs.getLastD y := by
  induction xs generalizing d with
  | nil => exact getLastD_cons_eq y zs d
  | cons x xs ih =>
      rw [List.cons_append, getLastD_cons_eq]
      exact ih x

theorem debit_states_getLastD (fills : List TradeFields) :
    ∀ db : DBState, (debit_states db fills).getLastD db
      = { db with cash := db.cash - (fills.map (fun f => f.notional_usd)).sum } := by
  induction fills with
  | nil => intro db; simp [debit_states]
  | cons f rest ih =>
      intro db
      simp only [debit_states, List.map_cons, List.sum_cons]
      rw [getLastD_cons_eq, ih (update_cash db (db.cash - f.notional_usd))]
      simp only [update_cash]
      congr 1
      ring

theorem insert_states_getLastD (fills : List TradeFields) (rid : ℕ) :
    ∀ db : DBState, (insert_states db rid fills).getLastD db
      = { db with trades := db.trades ++ fills.map (mk_trade rid) } := by
  induction fills with
  | nil => intro db; simp [insert_states]
  | cons f rest ih =>
      intro db
      simp only [insert_states, List.map_cons]
      rw [getLastD_cons_eq, ih (insert_trade db rid f)]
      simp only [insert_trade]
      congr 1
      simp

/-- The concrete fill used in the C3 scenario: $10 spent on market "m". -/
def example_fill : TradeFields :=
  { market_id := "mkt1", market_slug := "m", question := "q",
    side := "buy_yes", token_id := "tok", entry_price := 2 / 5, shares := 25,
    notional_usd := 10, model_price := 1 / 2, edge := 1 / 10, confidence := 1 }

/-- C3 counterexample: in a scan cycle over a fresh $100 account with one
successful $10 fill, the very first persisted database state (committed by
`update_cash` inside the fill loop) already has the cash debit but still
no trade row — `scan_once` inserts trades only after `insert_run`, so the
debit and the trade append are not atomic and the intermediate state is
observable by any concurrent reader of the store. -/
theorem scan_debit_before_insert_cex :
    (scan_states (init_db 100) [example_fill]).head?
      = some (update_cash (init_db 100) 90) ∧
    (update_cash (init_db 100) 90).cash < (init_db 100).cash ∧
    (update_cash (init_db 100) 90).trades = [] := by
  refine ⟨?_, by norm_num [update_cash, init_db], by simp [update_cash, init_db]⟩
  norm_num [scan_states, debit_states, insert_states, update_cash, init_db,
    example_fill, insert_run]

/-- C3 (amended): the cash debit of each successful fill is committed
immediately inside the scan loop, while the corresponding open trades are
appended only after the run record at the end of the cycle, so
intermediate persisted states with the debit but without the trade are
observable; at the end of the cycle, however, cash has been debited by
exactly the total spent notional, every fill's open trade has been
appended exactly once (with the cycle's run id), one run row was added,
and the starting bankroll is untouched. -/
theorem scan_cycle_final_state (db : DBState) (fills : List TradeFields) :
    ((scan_states db fills).getLastD db).cash
        = db.cash - (fills.map (fun f => f.notional_usd)).sum ∧
    ((scan_states db fills).getLastD db).trades
        = db.trades ++ fills.map (mk_trade (db.runs + 1)) ∧
    ((scan_states db fills).getLastD db).runs = db.runs + 1 ∧
    ((scan_states db fills).getLastD db).starting_bankroll = db.starting_bankroll := by
  have hlast : (scan_states db fills).getLastD db
      = { db with
            cash := db.cash - (fills.map (fun f => f.notional_usd)).sum
            runs := db.runs + 1
            trades := db.trades ++ fills.map (mk_trade (db.runs + 1)) } := by
    rw [scan_states, getLastD_append_cons]
    rw [insert_states_getLastD fills (insert_run ((debit_states db fills).getLastD db)).2
      (insert_run ((debit_states db fills).getLastD db)).1]
    rw [debit_states_getLastD fills db]
    rfl
  rw [hlast]
  exact ⟨rfl, rfl, rfl, rfl⟩

/-! ## Dictionary lemmas for the gate state -/

theorem dict_get_cons_pos {b : Type} (kv : String × b) (m : List (String × b))
    (k : String) (d : b) (h : kv.1 = k) : dict_get (kv :: m) k d = kv.2 := by
  simp [dict_get, h]

theorem dict_get_cons_neg {b : Type} (kv : String × b) (m : List (String × b))
    (k : String) (d : b) (h : ¬ kv.1 = k) :
    dict_get (kv :: m) k d = dict_get m k d := by
  simp [dict_get, h]

theorem dict_get_map_set_self {b : Type} (m : List (String × b)) (k : String)
    (v d : b) (hany : m.any (fun kv => kv.1 == k) = true) :
    dict_get (m.map (fun kv => if kv.1 == k then (k, v) else kv)) k d = v := by
  induction m with
  | nil => simp at hany
  | cons kv rest ih =>
      by_cases h : kv.1 = k
      · simp only [List.map_cons, if_pos (by simp [h] : (kv.1 == k) = true)]
        exact dict_get_cons_pos _ _ _ _ rfl
      · have hrest : rest.any (fun kv => kv.1 == k) = true := by
          simpa [List.any_cons, h] using hany
        simp only [List.map_cons, if_neg (by simp [h] : ¬ (kv.1 == k) = true)]
        rw [dict_get_cons_neg _ _ _ _ h]
        exact ih hrest

theorem dict_get_append_self {b : Type} (m : List (String × b)) (k : String)
    (v d : b) (hnone : m.any (fun kv => kv.1 == k) = false) :
    dict_get (m ++ [(k, v)]) k d = v := by
  induction m with
  | nil => exact dict_get_cons_pos _ _ _ _ rfl
  | cons kv rest ih =>
      have h : ¬ kv.1 = k := by
        intro hk
        simp [List.any_cons, hk] at hnone
      have hrest : rest.any (fun kv => kv.1 == k) = false := by
        simp only [List.any_cons, Bool.or_eq_false_iff] at hnone
        exact hnone.2
      rw [List.cons_append, dict_get_cons_neg _ _ _ _ h]
      exact ih hrest

theorem dict_get_set_self {b : Type} (m : List (String × b)) (k : String)
    (v d : b) : dict_get (dict_set m k v) k d = v := by
  rw [dict_set]
  by_cases hany : m.any (fun kv => kv.1 == k) = true
  · rw [if_pos hany]
    exact dict_get_map_set_self m k v d hany
  · rw [if_neg hany]
    exact dict_get_append_self m k v d (Bool.eq_false_iff.2 hany)

theorem dict_get_set_ne {b : Type} (m : List (String × b)) (k k' : String)
    (v d : b) (hne : ¬ k' = k) :
    dict_get (dict_set m k v) k' d = dict_get m k' d := by
  rw [dict_set]
  by_cases hany : m.any (fun kv => kv.1 == k) = true
  · rw [if_pos hany]
    clear hany
    induction m with
    | nil => rfl
    | cons kv rest ih =>
        by_cases h : kv.1 = k
        · have h1 : ¬ (k : String) = k' := fun hk => hne hk.symm
          have h2 : ¬ kv.1 = k' := by rw [h]; exact h1
          simp only [List.map_cons, if_pos (by simp [h] : (kv.1 == k) = true)]
          rw [dict_get_cons_neg _ _ _ _ h1, dict_get_cons_neg _ _ _ _ h2]
          exact ih
        · simp only [List.map_cons, if_neg (by simp [h] : ¬ (kv.1 == k) = true)]
          by_cases h' : kv.1 = k'
          · rw [dict_get_cons_pos _ _ _ _ h', dict_get_cons_pos _ _ _ _ h']
          · rw [dict_get_cons_neg _ _ _ _ h', dict_get_cons_neg _ _ _ _ h']
            exact ih
  · rw [if_neg hany]
    induction m with
    | nil =>
        simp only [List.nil_append]
        rw [dict_get_cons_neg _ _ _ _ (fun hk => hne hk.symm)]
    | cons kv rest ih =>
        have hrest : ¬ rest.any (fun kv => kv.1 == k) = true := by
          intro hr
          exact hany (by simp [List.any_cons, hr])
        by_cases h' : kv.1 = k'
        · rw [List.cons_append, dict_get_cons_pos _ _ _ _ h',
            dict_get_cons_pos _ _ _ _ h']
        · rw [List.cons_append, dict_get_cons_neg _ _ _ _ h',
            dict_get_cons_neg _ _ _ _ h']
          exact ih hrest

/-! ## C4: gate persistence -/

theorem dict_get_reset (m : List (String × ℚ)) (ps : List String) (s : String) :
    dict_get (m.map (fun kv => if ps.contains kv.1 then kv else (kv.1, (0 : ℚ)))) s 0
      = if ps.contains s = true then dict_get m s 0 else 0 := by
  induction m with
  | nil => by_cases h : ps.contains s = true <;> simp [dict_get, h]
  | cons kv rest ih =>
      rcases kv with ⟨k1, v1⟩
      by_cases hk : k1 = s
      · subst hk
        by_cases hc : ps.contains k1 = true
        · simp only [List.map_cons, if_pos hc, if_pos hc]
          rw [dict_get_cons_pos _ _ _ _ rfl, dict_get_cons_pos _ _ _ _ rfl]
        · simp only [List.map_cons, if_neg hc, if_neg hc]
          rw [dict_get_cons_pos _ _ _ _ rfl]
      · have hh1 : (if ps.contains k1 = true then ((k1, v1) : String × ℚ)
            else (k1, (0 : ℚ))).1 = k1 := by
          split <;> rfl
        rw [List.map_cons, dict_get_cons_neg _ _ _ _ (by rw [hh1]; exact hk), ih,
          dict_get_cons_neg (k1, v1) rest s 0 hk]

theorem annotate_persist_streak_other (ps : List String) (opps : List Opp) :
    ∀ (streak : List (String × ℚ)) (s : String), (∀ o ∈ opps, ¬ o.slug = s) →
      dict_get (annotate_persist streak ps opps).1 s 0 = dict_get streak s 0 := by
  induction opps with
  | nil => intro streak s _; rfl
  | cons o rest ih =>
      intro streak s hno
      have hrest : ∀ o' ∈ rest, ¬ o'.slug = s :=
        fun o' h => hno o' (List.mem_cons_of_mem _ h)
      by_cases hblank : o.slug = ""
      · simp only [annotate_persist, if_pos hblank]
        exact ih streak s hrest
      · simp only [annotate_persist, if_neg hblank]
        rw [ih _ s hrest]
        simp only [setK]
        exact dict_get_set_ne _ _ _ _ _
          (fun h => hno o (List.mem_cons_self o rest) h.symm)

theorem annotate_persist_streak_mem (ps : List String) (opps : List Opp) :
    ∀ (streak : List (String × ℚ)) (o : Opp), o ∈ opps → ¬ o.slug = "" →
      (opps.map (fun o => o.slug)).Nodup →
      dict_get (annotate_persist streak ps opps).1 o.slug 0
        = if ps.contains o.slug = true then dict_get streak o.slug 0 + 1 else 0 := by
  induction opps with
  | nil => intro streak o ho; exact absurd ho (List.not_mem_nil o)
  | cons o' rest ih =>
      intro streak o ho hblank hnd
      have hnd_rest : (rest.map (fun o => o.slug)).Nodup :=
        (List.nodup_cons.mp hnd).2
      have hnotin : o'.slug ∉ rest.map (fun o => o.slug) :=
        (List.nodup_cons.mp hnd).1
      rcases List.mem_cons.mp ho with heq | hmem
      · subst heq
        simp only [annotate_persist, if_neg hblank]
        have hothers : ∀ o' ∈ rest, ¬ o'.slug = o.slug := by
          intro o'' h hc
          exact hnotin (hc ▸ List.mem_map_of_mem (fun o => o.slug) h)
        rw [annotate_persist_streak_other ps rest _ o.slug hothers]
        simp only [setK, lookupD]
        rw [dict_get_set_self]
      · have hne : ¬ o'.slug = o.slug := by
          intro hc
          exact hnotin (hc ▸ List.mem_map_of_mem (fun o => o.slug) hmem)
        by_cases hblank' : o'.slug = ""
        · simp only [annotate_persist, if_pos hblank']
          exact ih streak o hmem hblank hnd_rest
        · simp only [annotate_persist, if_neg hblank']
          rw [ih _ o hmem hblank hnd_rest]
          simp only [setK]
          rw [dict_get_set_ne _ o'.slug o.slug _ 0 (fun h => hne h.symm)]

theorem pass_slugs_contains_iff (opps : List Opp) (th : ℚ) (o : Opp)
    (ho : o ∈ opps) (hnd : (opps.map (fun o => o.slug)).Nodup) :
    ((pass_slugs opps th).contains o.slug = true) ↔ th ≤ o.net_edge := by
  constructor
  · intro h
    have hmem : o.slug ∈ pass_slugs opps th := List.elem_iff.mp h
    rw [pass_slugs] at hmem
    obtain ⟨o', ho', hslug⟩ := List.mem_map.mp hmem
    have ho'mem : o' ∈ opps := (List.mem_filter.mp ho').1
    have hedge : th ≤ o'.net_edge := by
      have := (List.mem_filter.mp ho').2
      simpa using this
    have heqo : o' = o := List.inj_on_of_nodup_map hnd ho'mem ho hslug
    rw [← heqo]
    exact hedge
  · intro h
    have hf : o ∈ opps.filter (fun o => th ≤ o.net_edge) :=
      List.mem_filter.mpr ⟨ho, by simpa using h⟩
    have : o.slug ∈ pass_slugs opps th := by
      rw [pass_slugs]
      exact List.mem_map_of_mem _ hf
    exact List.elem_iff.mpr this

theorem maybe_execute_fired_persist (opp : Opp) (th : ℚ) (el cl : Bool)
    (mx : ℚ) (rs : ℤ) (gs : GateState) (mp cd : ℤ) (mi : ℚ)
    (h : (maybe_execute opp th el cl mx rs gs mp cd mi).1 = .paper_fired ∨
      ∃ amt, (maybe_execute opp th el cl mx rs gs mp cd mi).1 = .live_fired amt) :
    mp ≤ opp.persist_runs := by
  by_contra hlt
  push_neg at hlt
  by_cases hnet : opp.net_edge < th
  · rw [maybe_execute] at h
    simp [hnet] at h
  · rw [maybe_execute] at h
    simp [hnet, hlt] at h

/-- The monitor's default configuration with `min_persist_runs = 2`
(paper mode), used by the C4/C5 scenarios. -/
def demo_args : Args :=
  { live_order_usd := 5, kelly_fraction := 1 / 4, paper_only := false,
    execute_live := false, confirm_live := false, min_persist_runs := 2,
    signal_cooldown_runs := 5, min_improvement_bps := 25, threshold := 12 / 1000 }

/-- A single-market opportunity on slug "m" with the given net edge. -/
def demo_opp (e : ℚ) : Opp :=
  { slug := "m", net_edge := e, persist_runs := 0, order_usd := 1, token := "t" }

/-- Fresh gate state at the start of a monitoring loop. -/
def demo_gs0 : GateState := ⟨[], [], []⟩

theorem demo_upd1 : run_scan_gate_update demo_gs0 [demo_opp (3 / 100)] (12 / 1000)
    = ([("m", 1)], [{ demo_opp (3 / 100) with persist_runs := 1 }]) := by
  have hpass : pass_slugs [demo_opp (3 / 100)] (12 / 1000) = ["m"] := by
    norm_num [pass_slugs, List.filter_cons, demo_opp]
  simp only [run_scan_gate_update, demo_gs0]
  rw [hpass]
  norm_num [annotate_persist, demo_opp, dict_get, lookupD, setK, dict_set]
  simp +decide [show Rat.floor 1 = 1 by decide]

theorem demo_cycle1 : run_gate_cycle demo_gs0 [demo_opp (3 / 100)] demo_args 1
    = (⟨[("m", 1)], [], []⟩,
       [({ demo_opp (3 / 100) with persist_runs := 1 },
          ExecResult.blocked_persistence)]) := by
  simp only [run_gate_cycle, demo_args]
  rw [demo_upd1]
  simp only [sort_by_net_edge, List.mergeSort_singleton, List.take, List.foldl]
  norm_num [maybe_execute, demo_opp, demo_gs0]

theorem demo_upd2 : run_scan_gate_update ⟨[("m", 1)], [], []⟩
    [demo_opp (3 / 100)] (12 / 1000)
    = ([("m", 2)], [{ demo_opp (3 / 100) with persist_runs := 2 }]) := by
  have hpass : pass_slugs [demo_opp (3 / 100)] (12 / 1000) = ["m"] := by
    norm_num [pass_slugs, List.filter_cons, demo_opp]
  simp only [run_scan_gate_update]
  rw [hpass]
  norm_num [annotate_persist, demo_opp, dict_get, lookupD, setK, dict_set]
  simp +decide [show Rat.floor 2 = 2 by decide]

theorem demo_cycle2 : run_gate_cycle ⟨[("m", 1)], [], []⟩ [demo_opp (3 / 100)]
    demo_args 2
    = (⟨[("m", 2)], [("m", 2)], [("m", 3 / 100)]⟩,
       [({ demo_opp (3 / 100) with persist_runs := 2 }, ExecResult.paper_fired)]) := by
  simp only [run_gate_cycle, demo_args]
  rw [demo_upd2]
  simp only [sort_by_net_edge, List.mergeSort_singleton, List.take, List.foldl]
  norm_num [maybe_execute, demo_opp, lookupZ, lookupD, dict_get, setZ, setK, dict_set]

theorem demo_upd3 : run_scan_gate_update ⟨[("m", 2)], [("m", 2)], [("m", 3 / 100)]⟩
    [demo_opp (1 / 100)] (12 / 1000)
    = ([("m", 0)], [{ demo_opp (1 / 100) with persist_runs := 0 }]) := by
  have hpass : pass_slugs [demo_opp (1 / 100)] (12 / 1000) = [] := by
    norm_num [pass_slugs, List.filter_cons, List.filter_nil, demo_opp]
  simp only [run_scan_gate_update]
  rw [hpass]
  norm_num [annotate_persist, demo_opp, dict_get, lookupD, setK, dict_set]
  simp +decide [show Rat.floor 0 = 0 by decide]

theorem demo_cycle3 : run_gate_cycle ⟨[("m", 2)], [("m", 2)], [("m", 3 / 100)]⟩
    [demo_opp (1 / 100)] demo_args 3
    = (⟨[("m", 0)], [("m", 2)], [("m", 3 / 100)]⟩,
       [({ demo_opp (1 / 100) with persist_runs := 0 },
          ExecResult.below_threshold)]) := by
  simp only [run_gate_cycle, demo_args]
  rw [demo_upd3]
  simp only [sort_by_net_edge, List.mergeSort_singleton, List.take, List.foldl]
  norm_num [maybe_execute, demo_opp]

/-- C4: per market slug, one scan cycle's streak update sets the
persistence counter to the old value plus one exactly when the market's
net edge is at or above the acting threshold and resets it to zero
otherwise; `maybe_execute` never fires (paper log or live submission)
while the passed `persist_runs` is below `min_persist_runs`; and in the
concrete scenario with `min_persist_runs = 2`, a market clearing
threshold at cycles 1 and 2 is blocked for persistence at cycle 1 and
fires only at cycle 2, while dropping below threshold at cycle 3 resets
its counter to 0. -/
theorem gate_persistence
    (gs : GateState) (opps : List Opp) (th : ℚ) (o : Opp)
    (ho : o ∈ opps) (hnd : (opps.map (fun o => o.slug)).Nodup)
    (hs : ¬ o.slug = "")
    (opp2 : Opp) (th2 : ℚ) (el cl : Bool) (mx : ℚ) (rs : ℤ) (gs2 : GateState)
    (mp cd : ℤ) (mi : ℚ) :
    (lookupD (run_scan_gate_update gs opps th).1 o.slug 0
       = if th ≤ o.net_edge then lookupD gs.streak_by_slug o.slug 0 + 1 else 0) ∧
    ((maybe_execute opp2 th2 el cl mx rs gs2 mp cd mi).1 = .paper_fired →
       mp ≤ opp2.persist_runs) ∧
    (∀ amt : ℚ,
       (maybe_execute opp2 th2 el cl mx rs gs2 mp cd mi).1 = .live_fired amt →
       mp ≤ opp2.persist_runs) ∧
    (run_gate_cycle demo_gs0 [demo_opp (3 / 100)] demo_args 1).2
       = [({ demo_opp (3 / 100) with persist_runs := 1 },
           ExecResult.blocked_persistence)] ∧
    (run_gate_cycle (run_gate_cycle demo_gs0 [demo_opp (3 / 100)] demo_args 1).1
        [demo_opp (3 / 100)] demo_args 2).2
       = [({ demo_opp (3 / 100) with persist_runs := 2 },
           ExecResult.paper_fired)] ∧
    (run_gate_cycle
        (run_gate_cycle (run_gate_cycle demo_gs0 [demo_opp (3 / 100)] demo_args 1).1
          [demo_opp (3 / 100)] demo_args 2).1
        [demo_opp (1 / 100)] demo_args 3).1.streak_by_slug = [("m", 0)] := by
  refine ⟨?_, ?_, ?_, ?_, ?_, ?_⟩
  · simp only [run_scan_gate_update, lookupD]
    rw [annotate_persist_streak_mem (pass_slugs opps th) opps _ o ho hs hnd,
      dict_get_reset]
    have hiff := pass_slugs_contains_iff opps th o ho hnd
    by_cases hth : th ≤ o.net_edge
    · rw [if_pos (hiff.mpr hth), if_pos (hiff.mpr hth), if_pos hth]
    · rw [if_neg (fun hc => hth (hiff.mp hc)), if_neg hth]
  · intro h
    exact maybe_execute_fired_persist opp2 th2 el cl mx rs gs2 mp cd mi (Or.inl h)
  · intro amt h
    exact maybe_execute_fired_persist opp2 th2 el cl mx rs gs2 mp cd mi
      (Or.inr ⟨amt, h⟩)
  · rw [demo_cycle1]
  · rw [demo_cycle1, demo_cycle2]
  · rw [demo_cycle1, demo_cycle2, demo_cycle3]

/-- C4 witness: the scenario market itself satisfies the streak formula at
cycle 1 — its counter becomes 1 because 0.03 clears the 0.012 threshold. -/
theorem gate_persistence_witness :
    demo_opp (3 / 100) ∈ [demo_opp (3 / 100)] ∧
    (([demo_opp (3 / 100)]).map (fun o => o.slug)).Nodup ∧
    ¬ (demo_opp (3 / 100)).slug = "" ∧
    lookupD (run_scan_gate_update demo_gs0 [demo_opp (3 / 100)] (12 / 1000)).1
        (demo_opp (3 / 100)).slug 0
      = if (12 : ℚ) / 1000 ≤ (demo_opp (3 / 100)).net_edge
        then lookupD demo_gs0.streak_by_slug (demo_opp (3 / 100)).slug 0 + 1
        else 0 := by
  have h := gate_persistence demo_gs0 [demo_opp (3 / 100)] (12 / 1000)
    (demo_opp (3 / 100)) (by simp) (by simp) (by decide)
    (demo_opp (3 / 100)) (12 / 1000) false false 5 1 demo_gs0 2 5 25
  exact ⟨by simp, by simp, by decide, h.1⟩

/-! ## C5: cooldown suppression -/

/-- C5 counterexample: the improvement over a missing prior signal is not
unbounded but the finite sentinel 10^9 bps. Under a configuration that
`validate_args` accepts (cooldown 2·10^9 runs, minimum improvement 2·10^9
bps), an eligible signal on a slug with no prior fired signal is
nevertheless suppressed as `blocked_cooldown`. -/
theorem cooldown_sentinel_cex :
    validate_args
      { live_order_usd := 5, kelly_fraction := 1 / 4, paper_only := false,
        execute_live := false, confirm_live := false, min_persist_runs := 2,
        signal_cooldown_runs := 2 * 10 ^ 9, min_improvement_bps := 2 * 10 ^ 9,
        threshold := 12 / 1000 } = true ∧
    (maybe_execute
        { slug := "m", net_edge := 3 / 100, persist_runs := 5, order_usd := 1,
          token := "t" }
        (12 / 1000) false false 5 1 ⟨[], [], []⟩ 2 (2 * 10 ^ 9) (2 * 10 ^ 9)).1
      = ExecResult.blocked_cooldown ∧
    (⟨[], [], []⟩ : GateState).last_signal_run = [] ∧
    (⟨[], [], []⟩ : GateState).last_signal_edge = [] := by
  refine ⟨by norm_num [validate_args], ?_, rfl, rfl⟩
  norm_num [maybe_execute, lookupZ, lookupD, dict_get]

/-- C5 (amended): for an eligible (threshold- and persistence-cleared)
signal, `maybe_execute` suppresses it as `blocked_cooldown` if and only
if the cycles elapsed since the slug's last fired signal are below the
cooldown AND the basis-point improvement over the last fired edge is
below the configured minimum, where the improvement is the sentinel 10^9
bps whenever no prior edge above -10^8 is recorded (so "unbounded" only
against minimums below 10^9); and on firing — paper or live — the slug's
last-signal run index and last-signal edge are updated to the current
cycle and edge. -/
theorem cooldown_suppression
    (opp : Opp) (th : ℚ) (el cl : Bool) (mx : ℚ) (rs : ℤ) (gs : GateState)
    (mp cd : ℤ) (mi : ℚ)
    (hth : ¬ opp.net_edge < th) (hpr : ¬ opp.persist_runs < mp) :
    ((maybe_execute opp th el cl mx rs gs mp cd mi).1 = .blocked_cooldown ↔
       (rs - lookupZ gs.last_signal_run opp.slug (-(10 ^ 9)) < cd ∧
        (if lookupD gs.last_signal_edge opp.slug (-(10 ^ 9)) > -(10 ^ 8)
         then (opp.net_edge - lookupD gs.last_signal_edge opp.slug (-(10 ^ 9)))
            * 10000
         else 10 ^ 9) < mi)) ∧
    ((maybe_execute opp th el cl mx rs gs mp cd mi).1 = .paper_fired →
       lookupZ (maybe_execute opp th el cl mx rs gs mp cd mi).2.last_signal_run
           opp.slug (-(10 ^ 9)) = rs ∧
       lookupD (maybe_execute opp th el cl mx rs gs mp cd mi).2.last_signal_edge
           opp.slug (-(10 ^ 9)) = opp.net_edge) ∧
    (∀ amt : ℚ,
       (maybe_execute opp th el cl mx rs gs mp cd mi).1 = .live_fired amt →
       lookupZ (maybe_execute opp th el cl mx rs gs mp cd mi).2.last_signal_run
           opp.slug (-(10 ^ 9)) = rs ∧
       lookupD (maybe_execute opp th el cl mx rs gs mp cd mi).2.last_signal_edge
           opp.slug (-(10 ^ 9)) = opp.net_edge) := by
  simp only [maybe_execute, if_neg hth, if_neg hpr]
  by_cases hcc : rs - lookupZ gs.last_signal_run opp.slug (-(10 ^ 9)) < cd ∧
      (if lookupD gs.last_signal_edge opp.slug (-(10 ^ 9)) > -(10 ^ 8)
       then (opp.net_edge - lookupD gs.last_signal_edge opp.slug (-(10 ^ 9)))
          * 10000
       else 10 ^ 9) < mi
  · rw [if_pos hcc]
    exact ⟨iff_of_true rfl hcc, fun h => by simp at h, fun amt h => by simp at h⟩
  · rw [if_neg hcc]
    cases el with
    | false =>
        rw [if_pos (by simp)]
        refine ⟨iff_of_false (by simp) hcc, fun _ => ⟨?_, ?_⟩,
          fun amt h => by simp at h⟩
        · simp only [lookupZ, setZ]
          exact dict_get_set_self _ _ _ _
        · simp only [lookupD, setK]
          exact dict_get_set_self _ _ _ _
    | true =>
        rw [if_neg (by simp)]
        cases cl with
        | false =>
            rw [if_pos (by simp)]
            exact ⟨iff_of_false (by simp) hcc, fun h => by simp at h,
              fun amt h => by simp at h⟩
        | true =>
            rw [if_neg (by simp)]
            by_cases hcap : opp.order_usd > mx
            · rw [if_pos hcap]
              exact ⟨iff_of_false (by simp) hcc, fun h => by simp at h,
                fun amt h => by simp at h⟩
            · rw [if_neg hcap]
              refine ⟨iff_of_false (by simp) hcc, fun h => by simp at h,
                fun amt _ => ⟨?_, ?_⟩⟩
              · simp only [lookupZ, setZ]
                exact dict_get_set_self _ _ _ _
              · simp only [lookupD, setK]
                exact dict_get_set_self _ _ _ _

/-- C5 witness: after a fired signal at cycle 2 with edge 0.03, an eligible
cycle-3 signal with edge 0.0305 (5 bps improvement, inside the 5-run
cooldown) is suppressed under `min_improvement_bps = 25`, while edge
0.033 (30 bps improvement) is not. -/
theorem cooldown_suppression_witness :
    (maybe_execute
        { slug := "m", net_edge := 305 / 10000, persist_runs := 3, order_usd := 1,
          token := "t" }
        (12 / 1000) false false 5 3 ⟨[("m", 2)], [("m", 2)], [("m", 3 / 100)]⟩
        2 5 25).1
      = ExecResult.blocked_cooldown ∧
    ¬ (maybe_execute
        { slug := "m", net_edge := 33 / 1000, persist_runs := 3, order_usd := 1,
          token := "t" }
        (12 / 1000) false false 5 3 ⟨[("m", 2)], [("m", 2)], [("m", 3 / 100)]⟩
        2 5 25).1
      = ExecResult.blocked_cooldown := by
  have h1 := (cooldown_suppression
    { slug := "m", net_edge := 305 / 10000, persist_runs := 3, order_usd := 1,
      token := "t" }
    (12 / 1000) false false 5 3 ⟨[("m", 2)], [("m", 2)], [("m", 3 / 100)]⟩
    2 5 25 (by norm_num) (by decide)).1
  have h2 := (cooldown_suppression
    { slug := "m", net_edge := 33 / 1000, persist_runs := 3, order_usd := 1,
      token := "t" }
    (12 / 1000) false false 5 3 ⟨[("m", 2)], [("m", 2)], [("m", 3 / 100)]⟩
    2 5 25 (by norm_num) (by decide)).1
  constructor
  · exact h1.mpr (by norm_num [lookupZ, lookupD, dict_get])
  · intro h
    have hcontra := h2.mp h
    norm_num [lookupZ, lookupD, dict_get] at hcontra

/-! ## C10: hard live-order ceiling -/

theorem rat_floor_le_of_lt_add_one (q : ℚ) (m : ℤ) (hq : q < (m : ℚ) + 1) :
    q.floor ≤ m := by
  by_contra hgt
  push_neg at hgt
  have hle : ((m + 1 : ℤ) : ℚ) ≤ q := Rat.le_floor.mp (by omega)
  have hle' : (m : ℚ) + 1 ≤ q := by exact_mod_cast hle
  linarith

theorem round_half_even_le (y : ℚ) (n : ℤ) (h : y ≤ (n : ℚ)) :
    round_half_even y ≤ n := by
  rw [round_half_even]
  by_cases ht : y - y.floor = 1 / 2
  · have hfl : (y.floor : ℚ) = y - 1 / 2 := by linarith
    have hlt : y.floor < n := by
      have : (y.floor : ℚ) < (n : ℚ) := by rw [hfl]; linarith
      exact_mod_cast this
    rw [if_pos ht]
    split <;> omega
  · rw [if_neg ht]
    exact rat_floor_le_of_lt_add_one _ _ (by linarith)

theorem round2_le_five (x : ℚ) (h : x ≤ 5) : round2 x ≤ 5 := by
  rw [round2]
  have h100 : x * 100 ≤ ((500 : ℤ) : ℚ) := by push_cast; linarith
  have hle := round_half_even_le (x * 100) 500 h100
  have hc : ((round_half_even (x * 100) : ℤ) : ℚ) ≤ 500 := by exact_mod_cast hle
  linarith

theorem validate_args_live_le (a : Args) (hv : validate_args a = true) :
    a.live_order_usd ≤ 5 := by
  simp only [validate_args, Bool.and_eq_true, decide_eq_true_eq] at hv
  exact hv.1.1.1.1.1

/-- C10: under a configuration accepted by `validate_args`, any live order
`maybe_execute` actually submits has a USD amount of at most $5.00: the
validator rejects any `live_order_usd` above 5, and a fired live order's
amount is `round2(order_usd)` with `order_usd` at most the live cap —
candidates above the cap are blocked (`blocked_over_cap`) rather than
submitted. -/
theorem live_order_ceiling (a : Args) (opp : Opp) (rs : ℤ) (gs : GateState)
    (hv : validate_args a = true) :
    a.live_order_usd ≤ 5 ∧
    (∀ a' : Args, 5 < a'.live_order_usd → validate_args a' = false) ∧
    (∀ amt : ℚ,
      (maybe_execute opp a.threshold a.execute_live a.confirm_live
          a.live_order_usd rs gs a.min_persist_runs a.signal_cooldown_runs
          a.min_improvement_bps).1 = .live_fired amt →
      amt ≤ 5) := by
  refine ⟨validate_args_live_le a hv, ?_, ?_⟩
  · intro a' hgt
    by_contra hne
    have : validate_args a' = true := by
      cases h : validate_args a'
      · exact absurd h hne
      · rfl
    exact absurd (validate_args_live_le a' this) (not_le.mpr hgt)
  · intro amt h
    by_cases hnet : opp.net_edge < a.threshold
    · simp only [maybe_execute, if_pos hnet] at h
      simp at h
    · by_cases hper : opp.persist_runs < a.min_persist_runs
      · simp only [maybe_execute, if_neg hnet, if_pos hper] at h
        simp at h
      · simp only [maybe_execute, if_neg hnet, if_neg hper] at h
        by_cases hcd : rs - lookupZ gs.last_signal_run opp.slug (-(10 ^ 9))
              < a.signal_cooldown_runs ∧
            (if lookupD gs.last_signal_edge opp.slug (-(10 ^ 9)) > -(10 ^ 8)
             then (opp.net_edge
                - lookupD gs.last_signal_edge opp.slug (-(10 ^ 9))) * 10000
             else 10 ^ 9) < a.min_improvement_bps
        · rw [if_pos hcd] at h
          simp at h
        · rw [if_neg hcd] at h
          rcases Bool.eq_false_or_eq_true a.execute_live with hel | hel
          · rw [hel] at h
            rcases Bool.eq_false_or_eq_true a.confirm_live with hcl | hcl
            · rw [hcl] at h
              by_cases hcap : opp.order_usd > a.live_order_usd
              · rw [if_neg (by simp), if_neg (by simp), if_pos hcap] at h
                simp at h
              · rw [if_neg (by simp), if_neg (by simp), if_neg hcap] at h
                have hamt : round2 opp.order_usd = amt := by
                  simpa using h
                rw [← hamt]
                exact round2_le_five _
                  (le_trans (not_lt.mp hcap) (validate_args_live_le a hv))
            · rw [hcl] at h
              simp at h
          · rw [hel] at h
            simp at h

theorem rat_floor_eq_intFloor (q : ℚ) : q.floor = ⌊q⌋ := rfl

/-- C10 witness: a validated live configuration capped at $5.00 submits a
$4.50 candidate as exactly $4.50, which is within the absolute ceiling. -/
theorem live_order_ceiling_witness :
    validate_args
      { live_order_usd := 5, kelly_fraction := 1 / 4, paper_only := false,
        execute_live := true, confirm_live := true, min_persist_runs := 2,
        signal_cooldown_runs := 5, min_improvement_bps := 25,
        threshold := 12 / 1000 } = true ∧
    (maybe_execute
        { slug := "m", net_edge := 3 / 100, persist_runs := 5, order_usd := 9 / 2,
          token := "t" }
        (12 / 1000) true true 5 1 ⟨[], [], []⟩ 2 5 25).1
      = ExecResult.live_fired (9 / 2) ∧
    (9 : ℚ) / 2 ≤ 5 := by
  have hv : validate_args
      { live_order_usd := 5, kelly_fraction := 1 / 4, paper_only := false,
        execute_live := true, confirm_live := true, min_persist_runs := 2,
        signal_cooldown_runs := 5, min_improvement_bps := 25,
        threshold := 12 / 1000 } = true := by
    norm_num [validate_args]
  have hr2 : round2 (9 / 2) = 9 / 2 := by
    rw [round2, round_half_even]
    norm_num [rat_floor_eq_intFloor]
  have hexec : (maybe_execute
      { slug := "m", net_edge := 3 / 100, persist_runs := 5, order_usd := 9 / 2,
        token := "t" }
      (12 / 1000) true true 5 1 ⟨[], [], []⟩ 2 5 25).1
      = ExecResult.live_fired (round2 (9 / 2)) := by
    norm_num [maybe_execute, lookupZ, lookupD, dict_get]
  have h := (live_order_ceiling
    { live_order_usd := 5, kelly_fraction := 1 / 4, paper_only := false,
      execute_live := true, confirm_live := true, min_persist_runs := 2,
      signal_cooldown_runs := 5, min_improvement_bps := 25,
      threshold := 12 / 1000 }
    { slug := "m", net_edge := 3 / 100, persist_runs := 5, order_usd := 9 / 2,
      token := "t" }
    1 ⟨[], [], []⟩ hv).2.2 (9 / 2) (by rw [hr2] at hexec; exact hexec)
  exact ⟨hv, by rw [hexec, hr2], h⟩

/-! ## C8: fair-value formula -/

theorem gauss_integrable :
    MeasureTheory.Integrable (fun t : ℝ => Real.exp (-(t ^ 2))) := by
  have h := integrable_exp_neg_mul_sq (b := 1) one_pos
  simpa using h

theorem gauss_intervalIntegrable (a b : ℝ) :
    IntervalIntegrable (fun t : ℝ => Real.exp (-(t ^ 2)))
      MeasureTheory.volume a b :=
  gauss_integrable.intervalIntegrable

theorem erf_strictMono : StrictMono erf := by
  intro a b hab
  rw [erf, erf]
  have hc : 0 < 2 / Real.sqrt Real.pi := by positivity
  apply mul_lt_mul_of_pos_left _ hc
  have hsplit := intervalIntegral.integral_add_adjacent_intervals
    (gauss_intervalIntegrable 0 a) (gauss_intervalIntegrable a b)
  have hpos : 0 < ∫ t in a..b, Real.exp (-(t ^ 2)) :=
    intervalIntegral.intervalIntegral_pos_of_pos (gauss_intervalIntegrable a b)
      (fun t => Real.exp_pos _) hab
  linarith

theorem erf_nonneg_of_nonneg (x : ℝ) (hx : 0 ≤ x) : 0 ≤ erf x := by
  rw [erf]
  apply mul_nonneg (by positivity)
  exact intervalIntegral.integral_nonneg hx (fun t _ => (Real.exp_pos _).le)

theorem gauss_Ioi_value :
    ∫ t in Set.Ioi (0 : ℝ), Real.exp (-(t ^ 2)) = Real.sqrt Real.pi / 2 := by
  have h := integral_gaussian_Ioi 1
  simpa using h

theorem gauss_interval_le_of_nonneg (x : ℝ) (hx : 0 ≤ x) :
    (∫ t in (0 : ℝ)..x, Real.exp (-(t ^ 2))) ≤ Real.sqrt Real.pi / 2 := by
  rw [intervalIntegral.integral_of_le hx, ← gauss_Ioi_value]
  apply MeasureTheory.setIntegral_mono_set
  · exact gauss_integrable.integrableOn
  · exact Filter.Eventually.of_forall (fun t => (Real.exp_pos _).le)
  · exact (Set.Ioc_subset_Ioi_self).eventuallyLE

theorem erf_le_one_of_nonneg (x : ℝ) (hx : 0 ≤ x) : erf x ≤ 1 := by
  rw [erf]
  have hpi : 0 < Real.sqrt Real.pi := Real.sqrt_pos.mpr Real.pi_pos
  have hle := gauss_interval_le_of_nonneg x hx
  have h1 : 2 / Real.sqrt Real.pi * (Real.sqrt Real.pi / 2) = 1 := by
    field_simp
  calc 2 / Real.sqrt Real.pi * ∫ t in (0 : ℝ)..x, Real.exp (-(t ^ 2))
      ≤ 2 / Real.sqrt Real.pi * (Real.sqrt Real.pi / 2) :=
        mul_le_mul_of_nonneg_left hle (by positivity)
    _ = 1 := h1

theorem erf_neg (x : ℝ) : erf (-x) = - erf x := by
  rw [erf, erf]
  have hgoal : ∫ t in (0 : ℝ)..(-x), Real.exp (-(t ^ 2))
      = - ∫ t in (0 : ℝ)..x, Real.exp (-(t ^ 2)) := by
    have hcomp := intervalIntegral.integral_comp_neg
      (fun t : ℝ => Real.exp (-(t ^ 2))) (a := x) (b := 0)
    have heven : (∫ t in x..(0 : ℝ), Real.exp (-((-t) ^ 2)))
        = ∫ t in x..(0 : ℝ), Real.exp (-(t ^ 2)) := by
      apply intervalIntegral.integral_congr
      intro t _
      ring_nf
    rw [heven] at hcomp
    rw [neg_zero] at hcomp
    rw [← hcomp, intervalIntegral.integral_symm]
  rw [hgoal]
  ring

theorem erf_abs_le_one (x : ℝ) : -1 ≤ erf x ∧ erf x ≤ 1 := by
  rcases le_or_lt 0 x with hx | hx
  · constructor
    · linarith [erf_nonneg_of_nonneg x hx]
    · exact erf_le_one_of_nonneg x hx
  · have hx' : 0 ≤ -x := by linarith
    have h1 := erf_nonneg_of_nonneg (-x) hx'
    have h2 := erf_le_one_of_nonneg (-x) hx'
    rw [erf_neg] at h1 h2
    constructor <;> linarith

theorem norm_cdf_bounds (x : ℝ) : 0 ≤ norm_cdf x ∧ norm_cdf x ≤ 1 := by
  rw [norm_cdf]
  have h := erf_abs_le_one (x / Real.sqrt 2)
  constructor <;> [linarith [h.1]; linarith [h.2]]

theorem norm_cdf_strictMono : StrictMono norm_cdf := by
  intro a b hab
  rw [norm_cdf, norm_cdf]
  have hs2 : 0 < Real.sqrt 2 := Real.sqrt_pos.mpr (by norm_num)
  have := erf_strictMono ((div_lt_div_iff_of_pos_right hs2).mpr hab)
  linarith

/-- C8 counterexample: the code floors volatility at 1e-6 (and spot at
1e-9) before standardizing, so for a market with `sigma_annual = 1e-7`
(which satisfies the claim's "σ > 0") the computed probability is the
normal CDF of z built from the floored σ = 1e-6, not of the claim's z
built from σ itself: at spot 1, strike 1, drift 0, t = 1 the code yields
`norm_cdf (-5e-7)` while the claim predicts `norm_cdf (-5e-8)`. -/
theorem fair_value_sigma_floor_cex :
    ((0 : ℝ) < 1 ∧ (0 : ℝ) < 1 / 10000000 ∧ (0 : ℝ) < 1) ∧
    probability_price_above ⟨1, 1, 0, 1 / 10000000⟩ 1 1
      ≠ norm_cdf ((Real.log ((1 : ℝ) / 1)
          + ((0 : ℝ) - 0.5 * (1 / 10000000) * (1 / 10000000)) * 1)
          / ((1 / 10000000) * Real.sqrt 1)) := by
  refine ⟨⟨by norm_num, by norm_num, by norm_num⟩, ?_⟩
  have hcode : probability_price_above ⟨1, 1, 0, 1 / 10000000⟩ 1 1
      = norm_cdf (-(1 / 2000000)) := by
    simp only [probability_price_above]
    rw [show max (1 : ℝ) (1 / 1000000000) = 1 from max_eq_left (by norm_num),
      show max ((1 : ℝ) / 10000000) (1 / 1000000) = 1 / 1000000 from
        max_eq_right (by norm_num)]
    have hz : (Real.log ((1 : ℝ) / 1)
        + ((0 : ℝ) - 0.5 * (1 / 1000000) * (1 / 1000000)) * 1)
        / ((1 / 1000000) * Real.sqrt 1) = -(1 / 2000000) := by
      norm_num [Real.log_one, Real.sqrt_one]
    rw [hz, max_eq_left (norm_cdf_bounds _).1, min_eq_left (norm_cdf_bounds _).2]
  have hclaim : (Real.log ((1 : ℝ) / 1)
      + ((0 : ℝ) - 0.5 * (1 / 10000000) * (1 / 10000000)) * 1)
      / ((1 / 10000000) * Real.sqrt 1) = -(1 / 20000000) := by
    norm_num [Real.log_one, Real.sqrt_one]
  rw [hcode, hclaim]
  exact ne_of_lt (norm_cdf_strictMono (by norm_num))

/-- C8 (amended): for every market whose spot is at least the code's 1e-9
floor and whose volatility is at least the code's 1e-6 floor (with
strike K > 0 and time to expiry t > 0), the modeled at-or-above
probability equals the standard-normal CDF of
`z = (ln(S/K) + (mu - sigma²/2) t)/(sigma √t)` with drift mu the
annualized reference basis, and the at-or-below probability is its
complement. -/
theorem fair_value_formula (ref : RefMarket) (strike t_years : ℝ)
    (hs : 1 / 1000000000 ≤ ref.spot)
    (hsig : 1 / 1000000 ≤ ref.sigma_annual)
    (_hK : 0 < strike) (_ht : 0 < t_years) :
    probability_price_above ref strike t_years
      = norm_cdf ((Real.log (ref.spot / strike)
          + (ref.basis_annual - 0.5 * ref.sigma_annual * ref.sigma_annual)
            * t_years) / (ref.sigma_annual * Real.sqrt t_years)) ∧
    model_yes_prob true ref strike t_years
      = 1 - probability_price_above ref strike t_years ∧
    model_yes_prob false ref strike t_years
      = probability_price_above ref strike t_years := by
  refine ⟨?_, rfl, rfl⟩
  simp only [probability_price_above, max_eq_left hs, max_eq_left hsig]
  rw [max_eq_left (norm_cdf_bounds _).1, min_eq_left (norm_cdf_bounds _).2]

/-- C8 witness: at spot 1, strike 1, drift 0, σ = 1, t = 1 the hypotheses
hold and the probability is the normal CDF of the standardized z. -/
theorem fair_value_formula_witness :
    ((1 : ℝ) / 1000000000 ≤ 1 ∧ (1 : ℝ) / 1000000 ≤ 1 ∧
      (0 : ℝ) < 1) ∧
    probability_price_above ⟨1, 1, 0, 1⟩ 1 1
      = norm_cdf ((Real.log ((1 : ℝ) / 1) + ((0 : ℝ) - 0.5 * 1 * 1) * 1)
          / (1 * Real.sqrt 1)) := by
  have h := fair_value_formula ⟨1, 1, 0, 1⟩ 1 1 (by norm_num) (by norm_num)
    (by norm_num) (by norm_num)
  exact ⟨⟨by norm_num, by norm_num, by norm_num⟩, h.1⟩
